import Mathlib

open MeasureTheory Set

open scoped ENNReal

namespace ModelPop

/-!
# Verification of the grid-based spatial aggregation engine (Model_pop)

Shallow embedding of the aggregation core of the Model_pop repository
(`appli/scripts/preprocess/*.py`, `appli/scripts/features/*.py`,
`modele/scripts/features/*.py`) together with theorems settling the claims
of the specification against it.

Modelling conventions:
* floating-point numbers are modelled by `ℚ` (exact rational arithmetic);
  the geometric measures of claim C1 are modelled by measures on `ℝ × ℝ`;
* polygon geometries (grid cells, department boundaries, building
  footprints) are modelled as axis-aligned rectangles (`Box`) and finite
  unions of them; every geometric predicate used by the code
  (`intersects`, `contains`/`within` on points, intersection area) is
  exact on this fragment, and every concrete scenario of the
  specification lives inside it;
* pandas dataframes are association lists keyed by the cell identifier
  `idINSPIRE`; `NaN` is `Option.none`.  pandas orders `groupby` groups by
  sorted key; the embedding enumerates group keys in first-occurrence
  order instead — no claim concerns the order of output rows, only their
  presence, multiplicity and values;
* file I/O, CRS reprojection and plotting are outside the embedded core:
  a function "saving" a table is modelled as returning it.
-/

/-- Axis-aligned rectangle with rational corners; the embedding of
`shapely.geometry.box(minx, miny, maxx, maxy)` (a closed rectangle). -/
structure Box where
  xmin : ℚ
  ymin : ℚ
  xmax : ℚ
  ymax : ℚ
deriving DecidableEq, Repr

/-- Area of a box, the embedding of shapely `.area` on rectangles. -/
def Box.area (b : Box) : ℚ := (b.xmax - b.xmin) * (b.ymax - b.ymin)

/-- Shapely `.intersects` on two closed rectangles: true iff they share at
least one point (touching along an edge or a corner counts). -/
def Box.intersects (a b : Box) : Bool :=
  decide (max a.xmin b.xmin ≤ min a.xmax b.xmax) &&
  decide (max a.ymin b.ymin ≤ min a.ymax b.ymax)

/-- Area of the intersection of two boxes (shapely
`a.intersection(b).area` on rectangles). -/
def Box.overlapArea (a b : Box) : ℚ :=
  max 0 (min a.xmax b.xmax - max a.xmin b.xmin) *
  max 0 (min a.ymax b.ymax - max a.ymin b.ymin)

/-- Shapely `polygon.contains(point)` (equivalently `point.within(polygon)`)
for a rectangle: the point must lie in the open interior — a point on the
boundary is contained in neither of two adjacent cells. -/
def Box.containsPoint (b : Box) (p : ℚ × ℚ) : Bool :=
  decide (b.xmin < p.1) && decide (p.1 < b.xmax) &&
  decide (b.ymin < p.2) && decide (p.2 < b.ymax)

/-- The set of rational points of a closed box (exact point-set semantics
of the shapely polygon built by `box(...)`). -/
def Box.pts (b : Box) : Set (ℚ × ℚ) := Icc b.xmin b.xmax ×ˢ Icc b.ymin b.ymax

/-! ## Tessellator: `preprocess_create_grid.py` -/

/-- `np.arange(start, stop, step)`: the list
`start, start + step, start + 2·step, …` of length
`max 0 ⌈(stop - start) / step⌉`.  For `step = 0` numpy raises a
`ZeroDivisionError`; `ℚ` division by zero gives length `0` here and the
exception is modelled at the call site (`grid_main`). -/
def arange (start stop step : ℚ) : List ℚ :=
  (List.range (⌈(stop - start) / step⌉).toNat).map (fun i : ℕ => start + (i : ℚ) * step)

/-- `create_grid(bounds, cell_size)` of `preprocess_create_grid.py`:
the list comprehension `[box(x, y, x+s, y+s) for x in cols for y in rows]`
with `cols = np.arange(xmin, xmax, s)` and `rows = np.arange(ymin, ymax, s)`.
The outer loop is over `x`, the inner loop over `y`. -/
def create_grid (bounds : ℚ × ℚ × ℚ × ℚ) (cell_size : ℚ) : List Box :=
  let xmin := bounds.1
  let ymin := bounds.2.1
  let xmax := bounds.2.2.1
  let ymax := bounds.2.2.2
  let rows := arange ymin ymax cell_size
  let cols := arange xmin xmax cell_size
  (cols.map (fun x => rows.map (fun y => Box.mk x y (x + cell_size) (y + cell_size)))).flatten

/-- `gdf.total_bounds` of a nonempty collection of boxes:
`(min xmin, min ymin, max xmax, max ymax)`.  The empty case is never
reached (`main` checks `dep.empty` first). -/
def totalBounds (dep : List Box) : ℚ × ℚ × ℚ × ℚ :=
  match dep with
  | [] => (0, 0, 0, 0)
  | d :: ds =>
      (ds.foldl (fun acc b => min acc b.xmin) d.xmin,
       ds.foldl (fun acc b => min acc b.ymin) d.ymin,
       ds.foldl (fun acc b => max acc b.xmax) d.xmax,
       ds.foldl (fun acc b => max acc b.ymax) d.ymax)

/-- Outcome of one invocation of `main()` in `preprocess_create_grid.py`.
`saved` is the normal return (the grid written to GeoJSON, modelled as the
returned list of `(idINSPIRE, cell)` rows); `reportedError` is the normal
return taken by the `except` block after `print_status(..., "err", ...)`;
`raised` would be an exception escaping `main` — the embedding never
produces it because the `try/except Exception` catches everything. -/
inductive GridOutcome where
  | saved (cells : List (String × Box))
  | reportedError (msg : String)
  | raised (msg : String)
deriving DecidableEq, Repr

/-- `main()` of `preprocess_create_grid.py`.  The department boundary is a
finite union of boxes (a rectilinear multipolygon).  Control flow of the
source: empty department raises `ValueError("Department not found.")`
which the `except` catches; a zero cell size makes `np.arange` raise a
`ZeroDivisionError` ("division by zero"), also caught; otherwise the grid
is built, filtered by `grid.intersects(dep)`, identifiers are assigned as
`grid.index.astype(str)` (the surviving positional labels of the original
range index) and the result is saved. -/
def grid_main (dep : List Box) (cell_size : ℚ) : GridOutcome :=
  if dep.isEmpty then .reportedError "Department not found."
  else if cell_size = 0 then .reportedError "division by zero"
  else
    let grid := create_grid (totalBounds dep) cell_size
    let kept := grid.enum.filter (fun ic => dep.any (fun d => ic.2.intersects d))
    .saved (kept.map (fun ic => (toString ic.1, ic.2)))

/-- The saved rows of a `GridOutcome` (empty for an error outcome). -/
def savedCells : GridOutcome → List (String × Box)
  | .saved cells => cells
  | _ => []

/-! ### Claim C2: the 1000×1000 / 200 tessellation scenario -/

/-- The 1000×1000 square department boundary with origin (0,0). -/
def depSquare1000 : List Box := [Box.mk 0 0 1000 1000]

/-- Modelled from the spec: "identifiers assigned row-major 0..24" —
identifier k sits at column k % 5, row k / 5 of the 5×5 tiling (a full
row of constant y is numbered before moving up to the next row). -/
def rowMajorCell (k : ℕ) : Box :=
  Box.mk (200 * ((k % 5 : ℕ) : ℚ)) (200 * ((k / 5 : ℕ) : ℚ))
    (200 * ((k % 5 : ℕ) : ℚ) + 200) (200 * ((k / 5 : ℕ) : ℚ) + 200)

/-- The order the code actually produces (outer loop over x, inner loop
over y): identifier k sits at column k / 5, row k % 5. -/
def columnMajorCell (k : ℕ) : Box :=
  Box.mk (200 * ((k / 5 : ℕ) : ℚ)) (200 * ((k % 5 : ℕ) : ℚ))
    (200 * ((k / 5 : ℕ) : ℚ) + 200) (200 * ((k % 5 : ℕ) : ℚ) + 200)

/-! ### Claim C7: error handling of `main` in `preprocess_create_grid.py` -/

/-! ### Claim C8: boundary filtering keeps touching cells -/

/-- Modelled from the spec: "only strictly positive-area intersection
qualifies" — true iff the two boxes overlap with positive area. -/
def Box.overlapPos (a b : Box) : Bool :=
  decide (max a.xmin b.xmin < min a.xmax b.xmax) &&
  decide (max a.ymin b.ymin < min a.ymax b.ymax)

/-- A diagonal two-square department boundary whose bounding box contains
two grid cells that merely touch the boundary along edges. -/
def depDiagonal : List Box := [Box.mk 0 0 200 200, Box.mk 200 200 400 400]

/-! ## pandas `groupby` and geopandas `sjoin`, as used by the feature scripts -/

/-- The distinct keys of a keyed row list: the group keys of a pandas
`groupby("idINSPIRE")`.  pandas orders groups by sorted key; the embedding
uses `dedup` — no claim concerns the order of output rows. -/
def groupKeys {α : Type} (rows : List (String × α)) : List String :=
  (rows.map Prod.fst).dedup

/-- The values of the group of key `k`, in row order. -/
def groupVals {α : Type} (rows : List (String × α)) (k : String) : List α :=
  (rows.filter (fun r => r.1 == k)).map Prod.snd

/-- `gpd.sjoin(recs, grid, how="inner", predicate=...)`: one output row per
(record, matching cell) pair, record-major, keyed by the cell's
`idINSPIRE`.  Cells matching no record produce no row. -/
def sjoinInner {α : Type} (recs : List α) (grid : List (String × Box))
    (hits : α → Box → Bool) : List (String × α) :=
  recs.flatMap (fun r => (grid.filter (fun cb => hits r cb.2)).map (fun cb => (cb.1, r)))

/-- `gpd.sjoin(grid, recs, how="left", predicate="contains")`: one row per
(cell, contained record) pair in grid-major order; a cell containing no
record keeps a single placeholder row whose right-hand columns are NaN
(`none`). -/
def sjoinGridLeft {α : Type} (grid : List (String × Box)) (recs : List α)
    (pos : α → ℚ × ℚ) : List (String × Option α) :=
  grid.flatMap (fun cb =>
    match recs.filter (fun r => cb.2.containsPoint (pos r)) with
    | [] => [(cb.1, none)]
    | l => l.map (fun r => (cb.1, some r)))

/-! ### Claim C3: `compute_hauteur_ponderee_surface` (`feature_h_pond.py`) -/

/-- A building record of `BATIMENT.shp`: footprint polygon (modelled as a
box) and the `HAUTEUR` attribute, `none` when NaN. -/
structure Bati where
  geom : Box
  hauteur : Option ℚ
deriving DecidableEq, Repr

/-- `compute_hauteur_ponderee_surface(grid)` of `feature_h_pond.py`:
filter buildings with a height and positive footprint area, join them to
the grid with `sjoin(bati, grid, how="inner", predicate="intersects")`,
then per cell return `Σ(hauteur·area) / Σ(area)` where `area` is the full
footprint area column computed before the join. -/
def compute_hauteur_ponderee_surface (grid : List (String × Box))
    (bati : List Bati) : List (String × ℚ) :=
  let valid := (bati.filter (fun b => b.hauteur.isSome)).filter (fun b => 0 < b.geom.area)
  let joined := sjoinInner valid grid (fun b cb => b.geom.intersects cb)
  (groupKeys joined).map (fun k =>
    let g := groupVals joined k
    (k, (g.map (fun b => b.hauteur.getD 0 * b.geom.area)).sum /
        (g.map (fun b => b.geom.area)).sum))

/-- Modelled from the spec: the area-weighted mean with the weight of
building i taken as the area of its intersection (overlap) with the cell
— not the full footprint — and an undefined result when the total overlap
weight is zero. -/
def hauteurPondereeOverlapSpec (bati : List Bati) (c : Box) : Option ℚ :=
  let valid := (bati.filter (fun b => b.hauteur.isSome)).filter (fun b => 0 < b.geom.area)
  let g := valid.filter (fun b => b.geom.intersects c)
  let w := (g.map (fun b => b.geom.overlapArea c)).sum
  if w = 0 then none
  else some ((g.map (fun b => b.hauteur.getD 0 * b.geom.overlapArea c)).sum / w)

/-- A 2-cell grid and two buildings: one 100×100 building of height 10
straddling the cell boundary (overlap 5000 of its 10000 footprint), one
100×100 building of height 20 fully inside the first cell. -/
def gridTwoCells : List (String × Box) :=
  [("0", Box.mk 0 0 200 200), ("1", Box.mk 200 0 400 200)]

/-- The two buildings of the C3 counterexample. -/
def batiStraddle : List Bati :=
  [Bati.mk (Box.mk 150 0 250 100) (some 10), Bati.mk (Box.mk 0 0 100 100) (some 20)]

/-! ### Claim C5: `compute_densite_etablissements` (`feature_dens_eta.py`) -/

/-- `compute_densite_etablissements()` of `feature_dens_eta.py`:
left-join SIRENE points into the grid (`predicate="contains"`), count
rows per cell with `groupby(...).size()` (the NaN placeholder row of an
empty cell counts as 1), merge the counts and the built-surface table
onto the grid with `fillna(0)`, drop the rows with `surf_batie <= 10`,
and divide. -/
def compute_densite_etablissements (grid : List (String × Box))
    (sirene : List (ℚ × ℚ)) (surf : List (String × ℚ)) : List (String × ℚ) :=
  let joined := sjoinGridLeft grid sirene id
  let count := (groupKeys joined).map (fun k => (k, (groupVals joined k).length))
  let df := grid.map (fun cb =>
    (cb.1, (((count.lookup cb.1).getD 0 : ℕ), ((surf.lookup cb.1).getD 0 : ℚ))))
  let kept := df.filter (fun r => 10 < r.2.2)
  kept.map (fun r => (r.1, (r.2.1 : ℚ) / r.2.2))

/-- The 100×100 single-cell grid of the density counterexample. -/
def gridOneCell : List (String × Box) := [("0", Box.mk 0 0 100 100)]

/-- Three establishment points inside the single cell. -/
def threePoints : List (ℚ × ℚ) := [(10, 10), (20, 20), (30, 30)]

/-! ### Claim C4: `compute_indice_mixite_fonctionnelle` (`feature_in_mix_fonc.py`) -/

/-- The `NAF2_TO_FONCTION` table grouping NAF level-2 codes into urban
functions, verbatim from `feature_in_mix_fonc.py`. -/
def NAF2_TO_FONCTION : List (String × String) :=
  [("45", "automobile"), ("46", "commerce_gros"), ("47", "commerce_detail"),
   ("55", "hebergement"), ("56", "restauration"), ("58", "edition"),
   ("59", "audiovisuel"), ("60", "radio_tv"), ("61", "telecom"),
   ("62", "informatique"), ("63", "services_info"), ("64", "banque"),
   ("65", "assurance"), ("66", "finance"), ("68", "immobilier"),
   ("69", "juridique"), ("70", "siÃ¨ge_social"), ("71", "architecture"),
   ("72", "recherche"), ("73", "publicite"), ("74", "design"),
   ("75", "veterinaire"), ("77", "location"), ("78", "interim"),
   ("79", "voyage"), ("80", "securite"), ("81", "services_generaux"),
   ("82", "divers_bureau"), ("85", "enseignement"), ("86", "sante"),
   ("87", "hebergement_sante"), ("88", "action_sociale"), ("90", "arts"),
   ("91", "associations"), ("92", "loisirs"), ("93", "sport"),
   ("94", "organisation"), ("95", "reparation_biens"), ("96", "autres_services")]

/-- A SIRENE establishment: point location and
`activitePrincipaleEtablissement` code. -/
structure Etab where
  pos : ℚ × ℚ
  activite : String
deriving DecidableEq, Repr

/-- `gdf["fonction"] = gdf["naf2"].map(NAF2_TO_FONCTION).fillna("autre")`
with `naf2 = activite.astype(str).str[:2]`. -/
def fonction (e : Etab) : String :=
  (NAF2_TO_FONCTION.lookup (e.activite.take 2)).getD "autre"

/-- The entropy formula `-(probs * np.log(probs)).sum()` applied to an
explicit list of observed categories: `probs = value_counts / total`
enumerates each distinct category with its relative frequency.
(`value_counts` orders by decreasing count; the sum is over the same
terms, so the embedding enumerates distinct categories via `dedup`.) -/
noncomputable def entropyCats (cats : List String) : ℝ :=
  -(((cats.dedup).map (fun cat =>
      ((cats.count cat : ℝ) / (cats.length : ℝ)) *
        Real.log ((cats.count cat : ℝ) / (cats.length : ℝ)))).sum)

/-- The `entropy(group)` closure of `compute_indice_mixite_fonctionnelle`:
`value_counts()` drops the NaN of the left-join placeholder row, then the
Shannon formula is applied to the remaining categories. -/
noncomputable def entropy (vals : List (Option String)) : ℝ :=
  entropyCats (vals.filterMap id)

/-- `compute_indice_mixite_fonctionnelle(grid)` of `feature_in_mix_fonc.py`:
map establishments to (point, fonction), left-join into the grid with
`predicate="contains"`, and apply `entropy` to every group. -/
noncomputable def compute_indice_mixite_fonctionnelle (grid : List (String × Box))
    (etabs : List Etab) : List (String × ℝ) :=
  let gdf := etabs.map (fun e => (e.pos, fonction e))
  let joined := sjoinGridLeft grid gdf Prod.fst
  (groupKeys joined).map (fun k =>
    (k, entropy ((groupVals joined k).map (fun o => o.map Prod.snd))))

/-- Modelled from the spec: "an empty cell is undefined" — the entropy of
a cell whose group holds no real record is the undefined marker, not a
number. -/
noncomputable def entropySpec (vals : List (Option String)) : Option ℝ :=
  if (vals.filterMap id).isEmpty then none else some (entropy vals)

/-- Two establishments of the same coarse activity (retail, NAF 47)
inside the single cell. -/
def etabsTwoRetail : List Etab :=
  [Etab.mk (10, 10) "4711B", Etab.mk (20, 20) "4722Z"]

/-! ### Claim C9: mean pairwise building distance
(`feature_d_moy_bati.py` and `modele/.../dis_moy_bati.py`) -/

/-- Centroid of a rectangle (shapely `.centroid` on a box). -/
def centroid (b : Box) : ℚ × ℚ := ((b.xmin + b.xmax) / 2, (b.ymin + b.ymax) / 2)

/-- Euclidean distance between two rational points, the metric of
`scipy.spatial.distance.pdist`. -/
noncomputable def euclid (p q : ℚ × ℚ) : ℝ :=
  Real.sqrt ((((p.1 - q.1 : ℚ) : ℝ)) ^ 2 + (((p.2 - q.2 : ℚ) : ℝ)) ^ 2)

/-- The unordered pairs i < j of a list, in `pdist` enumeration order. -/
def allPairs {α : Type} : List α → List (α × α)
  | [] => []
  | x :: xs => (xs.map (fun y => (x, y))) ++ allPairs xs

/-- `pdist(coords).mean()`: the sum of all pairwise distances divided by
the number of pairs. -/
noncomputable def pdistMean (coords : List (ℚ × ℚ)) : ℝ :=
  ((allPairs coords).map (fun pq => euclid pq.1 pq.2)).sum / ((allPairs coords).length : ℝ)

/-- `compute_mean_distance(group)` of `modele/.../dis_moy_bati.py` (also
the loop body of `compute_distance_moyenne_batiments` in
`feature_d_moy_bati.py`): the mean pairwise distance when the group has
more than one coordinate, `np.nan` (`none`) otherwise. -/
noncomputable def compute_mean_distance (group : String × List (ℚ × ℚ)) :
    String × Option ℝ :=
  if 1 < group.2.length then (group.1, some (pdistMean group.2)) else (group.1, none)

/-- `compute_distance_moyenne_batiments` of `feature_d_moy_bati.py`:
replace each building by its centroid, inner-join the centroids into the
grid with `predicate="within"`, and apply `compute_mean_distance` to each
group.  (The `modele` variant distributes the same per-group function
over a process pool; the per-cell results are identical.) -/
noncomputable def compute_distance_moyenne_batiments (grid : List (String × Box))
    (bati : List Box) : List (String × Option ℝ) :=
  let cents := bati.map centroid
  let joined := sjoinInner cents grid (fun p cb => cb.containsPoint p)
  (groupKeys joined).map (fun k => compute_mean_distance (k, groupVals joined k))

/-- Two buildings whose centroids fall in cell "0" of the two-cell grid. -/
def batiTwoInCellZero : List Box := [Box.mk 10 10 30 30, Box.mk 50 50 90 90]

/-! ### Claim C10: `compute_emplois_estimes_pondere` (`feature_emp_est.py`) -/

/-- The `TRANCHE_TO_EFFECTIF` lookup of `feature_emp_est.py`
(headcount-class code → representative employee count). -/
def TRANCHE_TO_EFFECTIF : List (String × ℚ) :=
  [("00", 0), ("01", 3 / 2), ("02", 4), ("03", 8), ("11", 15),
   ("12", 35), ("21", 75), ("22", 150), ("31", 225), ("32", 350),
   ("41", 500), ("42", 750), ("51", 1000), ("52", 1500), ("53", 2000)]

/-- A SIRENE establishment with point location, activity code and
`trancheEffectifsEtablissement` class code. -/
structure EtabSirene where
  pos : ℚ × ℚ
  activite : String
  trancheCode : String
deriving DecidableEq, Repr

/-- `gdf["tranche"] = gdf["trancheEffectifsEtablissement"].map(TRANCHE_TO_EFFECTIF)`
— NaN for class codes absent from the lookup. -/
def tranche (e : EtabSirene) : Option ℚ := TRANCHE_TO_EFFECTIF.lookup e.trancheCode

/-- `gdf["naf2"]`: the first two characters of the activity code. -/
def naf2E (e : EtabSirene) : String := e.activite.take 2

/-- `naf_fallback = gdf.dropna(subset=["tranche"]).groupby("naf2")["tranche"].mean()`:
the mean representative count among same-NAF establishments with a known
class, `none` when that NAF group is empty. -/
def naf_fallback (etabs : List EtabSirene) (naf : String) : Option ℚ :=
  let l := (etabs.filter (fun x => (tranche x).isSome && (naf2E x == naf))).filterMap tranche
  if l.isEmpty then none else some (l.sum / (l.length : ℚ))

/-- `gdf["emplois_estimes"]`: the direct representative value when the
class is known, else the NAF fallback mean, else 0. -/
def emplois_estimes (etabs : List EtabSirene) (e : EtabSirene) : ℚ :=
  match tranche e with
  | some t => t
  | none => (naf_fallback etabs (naf2E e)).getD 0

/-- `compute_emplois_estimes_pondere(grid)` of `feature_emp_est.py`:
left-join the (point, estimate) records into the grid
(`predicate="contains"`) and sum the estimates per cell — the pandas
group sum skips the NaN of the placeholder row of an empty cell. -/
def compute_emplois_estimes_pondere (grid : List (String × Box))
    (etabs : List EtabSirene) : List (String × ℚ) :=
  let gdf := etabs.map (fun e => (e.pos, emplois_estimes etabs e))
  let joined := sjoinGridLeft grid gdf Prod.fst
  (groupKeys joined).map (fun k =>
    (k, ((groupVals joined k).filterMap (fun o => o.map Prod.snd)).sum))

/-! ### Claim C6: `fusion_features` (`features_fusion.py`) -/

/-- One feature CSV as read by `fusion_features`: the number of value
columns and the rows `(idINSPIRE, values)`; `none` is NaN. -/
structure FTab where
  width : ℕ
  rows : List (String × List (Option ℚ))
deriving DecidableEq, Repr

/-- `pd.merge(t1, t2, on="idINSPIRE", how="outer")`: one output row per
matching pair of input rows (duplicate keys multiply rows), unmatched
left rows are padded with NaN on the right, unmatched right rows padded
on the left.  (pandas sorts the union of keys; the embedding keeps
left-then-right order — no claim concerns row order.) -/
def outerMerge (t1 t2 : FTab) : FTab :=
  { width := t1.width + t2.width
    rows :=
      (t1.rows.flatMap (fun r =>
        match t2.rows.filter (fun r2 => r2.1 == r.1) with
        | [] => [(r.1, r.2 ++ List.replicate t2.width none)]
        | ms => ms.map (fun r2 => (r.1, r.2 ++ r2.2)))) ++
      ((t2.rows.filter (fun r2 => t1.rows.all (fun r => !(r.1 == r2.1)))).map
        (fun r2 => (r2.1, List.replicate t1.width none ++ r2.2))) }

/-- `fusion_features()` of `features_fusion.py`: fold the pairwise outer
merge over the detected feature files; `none` models the "no files to
merge" branch.  The function has no error path: nothing checks key
uniqueness and no `SchemaError` exists in the repository. -/
def fusion_features (files : List FTab) : Option FTab :=
  match files with
  | [] => none
  | f :: fs => some (fs.foldl outerMerge f)

/-! ### Claim C1: no double counting in area/length-weighted overlay joins
(`compute_surface_batie` of `preprocess_area_bati.py`,
`compute_densite_voirie_optimisee` of `feature_dens_voirie.py`)

The per-record quantity attributed to a cell by both overlay joins is the
measure of `record ∩ cell` — planar Lebesgue measure (shapely `.area`)
for buildings, 1-dimensional Hausdorff measure (shapely `.length`) for
roads — with the cell taken as the closed rectangle that shapely builds.
The record geometry is an arbitrary subset `R` of the plane and the
measure is kept generic so that one theorem covers both joins. -/

/-- The closed planar region of a grid cell, as shapely builds it. -/
def Box.region (b : Box) : Set (ℝ × ℝ) :=
  Icc (b.xmin : ℝ) (b.xmax : ℝ) ×ˢ Icc (b.ymin : ℝ) (b.ymax : ℝ)

/-- The half-open core of a cell: cores of distinct lattice cells are
pairwise disjoint. -/
def Box.regionIco (b : Box) : Set (ℝ × ℝ) :=
  Ico (b.xmin : ℝ) (b.xmax : ℝ) ×ˢ Ico (b.ymin : ℝ) (b.ymax : ℝ)

/-- The right and top edges of a cell: what the closed region adds to the
half-open core. -/
def Box.regionEdge (b : Box) : Set (ℝ × ℝ) :=
  ({(b.xmax : ℝ)} ×ˢ Icc (b.ymin : ℝ) (b.ymax : ℝ)) ∪
  (Icc (b.xmin : ℝ) (b.xmax : ℝ) ×ˢ {(b.ymax : ℝ)})

/-- A 100 m road segment lying exactly along the shared edge `x = 200` of
two adjacent grid cells. -/
def roadOnEdge : Set (ℝ × ℝ) := (fun t : ℝ => ((200 : ℝ), t)) '' Icc 50 150

/-- A 100 m road segment strictly inside the first cell, touching no cell
edge. -/
def roadInsideCell : Set (ℝ × ℝ) := ({(50 : ℝ)} : Set ℝ) ×ˢ Icc 10 110

/-! ## Theorems -/

/-- `Box.intersects` agrees with the point-set semantics: the boolean is
true exactly when the two closed rectangles share a point. -/
theorem Box.intersects_iff_nonempty (a b : Box) :
    a.intersects b = true ↔ (a.pts ∩ b.pts).Nonempty := by
  constructor
  · intro h
    unfold Box.intersects at h
    rw [Bool.and_eq_true, decide_eq_true_eq, decide_eq_true_eq] at h
    refine ⟨(max a.xmin b.xmin, max a.ymin b.ymin), ?_, ?_⟩ <;>
      simp only [Box.pts, mem_prod, mem_Icc] <;>
      constructor <;> constructor
    · exact le_max_left _ _
    · exact le_trans h.1 (min_le_left _ _)
    · exact le_max_left _ _
    · exact le_trans h.2 (min_le_left _ _)
    · exact le_max_right _ _
    · exact le_trans h.1 (min_le_right _ _)
    · exact le_max_right _ _
    · exact le_trans h.2 (min_le_right _ _)
  · rintro ⟨p, hpa, hpb⟩
    simp only [Box.pts, mem_prod, mem_Icc] at hpa hpb
    unfold Box.intersects
    rw [Bool.and_eq_true, decide_eq_true_eq, decide_eq_true_eq]
    constructor
    · exact le_trans (max_le hpa.1.1 hpb.1.1) (le_min hpa.1.2 hpb.1.2)
    · exact le_trans (max_le hpa.2.1 hpb.2.1) (le_min hpa.2.2 hpb.2.2)

/-- A box occurs among the kept rows of the enumerate–filter–relabel idiom
of `main` exactly when it is a grid member passing the filter. -/
theorem mem_keptCells (l : List Box) (p : Box → Bool) (b : Box) :
    (∃ k, (k, b) ∈ (l.enum.filter (fun ic => p ic.2)).map (fun ic => (toString ic.1, ic.2)))
      ↔ b ∈ l ∧ p b = true := by
  constructor
  · rintro ⟨k, hk⟩
    obtain ⟨⟨i, c⟩, hic, heq⟩ := List.mem_map.mp hk
    obtain ⟨hmem, hp⟩ := List.mem_filter.mp hic
    cases heq
    have hget := List.mem_enum_iff_getElem?.mp hmem
    exact ⟨List.mem_iff_getElem?.mpr ⟨i, hget⟩, hp⟩
  · rintro ⟨hmem, hp⟩
    obtain ⟨i, hget⟩ := List.mem_iff_getElem?.mp hmem
    refine ⟨toString i, List.mem_map.mpr ⟨(i, b), List.mem_filter.mpr ⟨?_, hp⟩, rfl⟩⟩
    exact List.mem_enum_iff_getElem?.mpr hget

/-- C2, counterexample: the claim says identifiers follow row-major tiling
order, which puts cell "1" at (200,0)–(400,200); the code's comprehension
iterates x in the outer loop and y in the inner loop, so cell "1" is
(0,200)–(200,400) — the cell above cell "0", not the one to its right. -/
theorem c2_counterexample_not_row_major :
    (savedCells (grid_main depSquare1000 200))[1]? = some ("1", Box.mk 0 200 200 400) ∧
    rowMajorCell 1 = Box.mk 200 0 400 200 ∧
    Box.mk 0 200 200 400 ≠ rowMajorCell 1 := by
  with_unfolding_all decide

set_option maxRecDepth 40000 in
/-- C2, amended: the tessellation of the (0,0)–(1000,1000) boundary at
cell size 200 has exactly 25 cells, identifier k is the string of k and
names the 200×200 square at column k / 5, row k % 5 (column-major: x
varies in the outer loop, y in the inner loop), every cell is an exact
200×200 axis-aligned square, and re-running on the same input yields the
identical outcome. -/
theorem c2_grid_is_25_column_major_squares :
    (savedCells (grid_main depSquare1000 200)).length = 25 ∧
    (∀ k, k < 25 → (savedCells (grid_main depSquare1000 200))[k]? =
        some (toString k, columnMajorCell k)) ∧
    (∀ kc ∈ savedCells (grid_main depSquare1000 200),
        kc.2.xmax - kc.2.xmin = 200 ∧ kc.2.ymax - kc.2.ymin = 200) ∧
    grid_main depSquare1000 200 = grid_main depSquare1000 200 := by
  with_unfolding_all decide

/-- C2, witness: the amended theorem instantiated at k = 7. -/
theorem c2_witness :
    7 < 25 ∧ (savedCells (grid_main depSquare1000 200))[7]? =
      some (toString 7, columnMajorCell 7) :=
  ⟨by norm_num, c2_grid_is_25_column_major_squares.2.1 7 (by norm_num)⟩

/-- C7, counterexample: a zero cell size and an empty boundary are both
swallowed by the catch-all `except Exception` and reported as a normal
return (`print_status(..., "err", ...)`); no `ConfigurationError` or
`GeometryError` exists in the repository and nothing aborts the
invocation.  A negative cell size is not even an error: `np.arange` with a
negative step over increasing bounds is empty and an empty grid is saved
normally. -/
theorem c7_counterexample_errors_are_caught :
    grid_main depSquare1000 0 = .reportedError "division by zero" ∧
    grid_main [] 200 = .reportedError "Department not found." ∧
    grid_main depSquare1000 (-100) = .saved [] := by
  with_unfolding_all decide

/-- C7, amended: no exception ever escapes `main` — every error is caught
and converted into a normal `reportedError` return; an empty boundary
reports "Department not found." and a zero cell size reports the numpy
"division by zero", neither aborting the engine invocation. -/
theorem c7_no_exception_escapes (dep : List Box) (s : ℚ) :
    (∀ m, grid_main dep s ≠ .raised m) ∧
    (dep = [] → grid_main dep s = .reportedError "Department not found.") ∧
    (dep ≠ [] → s = 0 → grid_main dep s = .reportedError "division by zero") := by
  refine ⟨?_, ?_, ?_⟩
  · intro m
    unfold grid_main
    split
    · simp
    · split <;> simp
  · rintro rfl
    simp [grid_main]
  · intro hdep hs
    unfold grid_main
    rw [if_neg (by simpa [List.isEmpty_iff] using hdep), if_pos hs]

/-- C7, witness: the amended theorem instantiated at the empty boundary
and at a zero cell size. -/
theorem c7_witness :
    (([] : List Box) = [] ∧
      grid_main [] 200 = .reportedError "Department not found.") ∧
    (depSquare1000 ≠ [] ∧ (0 : ℚ) = 0 ∧
      grid_main depSquare1000 0 = .reportedError "division by zero") :=
  ⟨⟨rfl, (c7_no_exception_escapes [] 200).2.1 rfl⟩,
   ⟨by decide, rfl, (c7_no_exception_escapes depSquare1000 0).2.2 (by decide) rfl⟩⟩

/-- C8, counterexample: the cell (0,200)–(200,400) only touches the
diagonal boundary along edges (every intersection area is 0), yet
`grid.intersects(dep)` is true for a shared edge, so the cell is retained
— the claim requires it to be excluded. -/
theorem c8_counterexample_touching_cell_kept :
    (("1", Box.mk 0 200 200 400) ∈ savedCells (grid_main depDiagonal 200)) ∧
    (∀ d ∈ depDiagonal, (Box.mk 0 200 200 400).overlapPos d = false) ∧
    (∀ d ∈ depDiagonal, (Box.mk 0 200 200 400).overlapArea d = 0) := by
  with_unfolding_all decide

/-- C8, amended: for a nonempty boundary and nonzero cell size, a cell of
the regular tiling is retained iff its closed region shares at least one
point with some part of the boundary — zero-area edge or corner contact
included, since the filter is shapely `.intersects`. -/
theorem c8_cell_retained_iff_shares_point (dep : List Box) (s : ℚ) (b : Box)
    (hdep : dep ≠ []) (hs : s ≠ 0) :
    (∃ k, (k, b) ∈ savedCells (grid_main dep s)) ↔
      b ∈ create_grid (totalBounds dep) s ∧ ∃ d ∈ dep, (b.pts ∩ d.pts).Nonempty := by
  unfold grid_main
  rw [if_neg (by simpa [List.isEmpty_iff] using hdep), if_neg hs]
  simp only [savedCells]
  rw [mem_keptCells (create_grid (totalBounds dep) s)
    (fun c => dep.any (fun d => c.intersects d)) b]
  rw [List.any_eq_true]
  constructor
  · rintro ⟨hmem, d, hd, hint⟩
    exact ⟨hmem, d, hd, (Box.intersects_iff_nonempty _ _).mp hint⟩
  · rintro ⟨hmem, d, hd, hne⟩
    exact ⟨hmem, d, hd, (Box.intersects_iff_nonempty _ _).mpr hne⟩

/-- C8, witness: the amended theorem instantiated at the diagonal
boundary and the touching cell, which is retained. -/
theorem c8_witness :
    depDiagonal ≠ [] ∧ (200 : ℚ) ≠ 0 ∧
    ((∃ k, (k, Box.mk 0 200 200 400) ∈ savedCells (grid_main depDiagonal 200)) ↔
      Box.mk 0 200 200 400 ∈ create_grid (totalBounds depDiagonal) 200 ∧
        ∃ d ∈ depDiagonal, ((Box.mk 0 200 200 400).pts ∩ d.pts).Nonempty) :=
  ⟨by decide, by norm_num,
   c8_cell_retained_iff_shares_point depDiagonal 200 _ (by decide) (by norm_num)⟩

/-- A key has a group exactly when it has at least one row. -/
theorem mem_groupKeys_iff {α : Type} (rows : List (String × α)) (k : String) :
    k ∈ groupKeys rows ↔ groupVals rows k ≠ [] := by
  unfold groupKeys groupVals
  rw [List.mem_dedup, List.mem_map]
  constructor
  · rintro ⟨⟨k2, v⟩, hmem, rfl⟩
    intro hnil
    rw [List.map_eq_nil_iff, List.filter_eq_nil_iff] at hnil
    exact hnil _ hmem (by simp)
  · intro hne
    obtain ⟨r, hr⟩ := List.exists_mem_of_ne_nil _ hne
    obtain ⟨row, hrow, _⟩ := List.mem_map.mp hr
    have hk := (List.mem_filter.mp hrow).2
    exact ⟨row, (List.mem_filter.mp hrow).1, by simpa using hk⟩

/-- Reading the groupby output table `keys.map (fun k => (k, f k))`. -/
theorem lookup_map_self {β : Type} (keys : List String) (f : String → β) (k : String) :
    ((keys.map (fun k2 => (k2, f k2))).lookup k) =
      if k ∈ keys then some (f k) else none := by
  induction keys with
  | nil => simp
  | cons k2 ks ih =>
      by_cases h : k = k2
      · subst h
        simp [List.lookup]
      · have hbeq : (k == k2) = false := by
          rw [beq_eq_false_iff_ne]
          exact h
        simp only [List.map_cons, List.lookup, hbeq, List.mem_cons]
        rw [ih]
        by_cases hk : k ∈ ks
        · rw [if_pos hk, if_pos (Or.inr hk)]
        · rw [if_neg hk, if_neg (fun hor => hor.elim h hk)]

/-- A lookup misses every row whose key differs from `k`. -/
theorem lookup_eq_none_of_keys_ne {γ : Type} (l : List (String × γ)) (k : String)
    (h : ∀ row ∈ l, row.1 ≠ k) : l.lookup k = none := by
  induction l with
  | nil => rfl
  | cons r rs ih =>
      have hr := h r (List.mem_cons_self r rs)
      have hbeq : (k == r.1) = false := by
        rw [beq_eq_false_iff_ne]
        exact Ne.symm hr
      simp only [List.lookup, hbeq]
      exact ih (fun row hrow => h row (List.mem_cons_of_mem r hrow))

/-- In a grid with distinct identifiers, filtering for one identifier and
an extra condition finds exactly the cell carrying that identifier,
provided it passes the condition. -/
theorem filter_key_of_nodup (grid : List (String × Box)) (p : String × Box → Bool)
    (k : String) (c : Box) (hnd : (grid.map Prod.fst).Nodup) (hmem : (k, c) ∈ grid) :
    grid.filter (fun cb => p cb && cb.1 == k) =
      if p (k, c) then [(k, c)] else [] := by
  induction grid with
  | nil => cases hmem
  | cons g gs ih =>
      rw [List.map_cons, List.nodup_cons] at hnd
      rcases List.mem_cons.mp hmem with hg | hgs
      · subst hg
        have hnotin : ∀ cb ∈ gs, ¬(p cb && cb.1 == k) = true := by
          intro cb hcb hcontra
          rw [Bool.and_eq_true, beq_iff_eq] at hcontra
          have hmemk : cb.1 ∈ List.map Prod.fst gs := List.mem_map_of_mem Prod.fst hcb
          rw [hcontra.2] at hmemk
          exact hnd.1 hmemk
        rw [List.filter_cons]
        by_cases hp : p (k, c) = true
        · rw [if_pos (by simp [hp]), if_pos hp, List.filter_eq_nil_iff.mpr hnotin]
        · rw [if_neg (by simp [hp]), if_neg hp, List.filter_eq_nil_iff.mpr hnotin]
      · have hgk : g.1 ≠ k := by
          intro hk
          apply hnd.1
          rw [hk]
          exact List.mem_map_of_mem Prod.fst hgs
        rw [List.filter_cons, if_neg (by simp [hgk]), ih hnd.2 hgs]

/-- Generic: flat-mapping each element either to itself or to nothing is a
filter. -/
theorem flatMap_ite_singleton {α : Type} (l : List α) (p : α → Bool) :
    (l.flatMap (fun a => if p a then [a] else [])) = l.filter p := by
  induction l with
  | nil => rfl
  | cons a as ih =>
      rw [List.flatMap_cons, List.filter_cons, ih]
      by_cases hp : p a = true
      · rw [if_pos hp, if_pos hp, List.singleton_append]
      · rw [if_neg hp, if_neg hp, List.nil_append]

/-- Grouping an inner spatial join by cell identifier recovers, for each
cell of a duplicate-free grid, exactly the records matching that cell, in
record order. -/
theorem groupVals_sjoinInner {α : Type} (recs : List α) (grid : List (String × Box))
    (hits : α → Box → Bool) (k : String) (c : Box)
    (hnd : (grid.map Prod.fst).Nodup) (hmem : (k, c) ∈ grid) :
    groupVals (sjoinInner recs grid hits) k = recs.filter (fun r => hits r c) := by
  unfold groupVals sjoinInner
  rw [List.filter_flatMap]
  have hblock : ∀ r : α,
      (((grid.filter (fun cb => hits r cb.2)).map (fun cb => (cb.1, r))).filter
          (fun row : String × α => row.1 == k)).map Prod.snd =
        if hits r c then [r] else [] := by
    intro r
    rw [List.filter_map]
    have hcomp : ((fun row : String × α => row.1 == k) ∘ (fun cb : String × Box => (cb.1, r)))
        = fun cb : String × Box => cb.1 == k := rfl
    rw [hcomp, List.filter_filter]
    have := filter_key_of_nodup grid (fun cb => hits r cb.2) k c hnd hmem
    rw [show (fun cb : String × Box => hits r cb.2 && (cb.1 == k)) =
        (fun cb : String × Box => (cb.1 == k) && hits r cb.2) from by
      funext cb; exact Bool.and_comm _ _] at this
    rw [this]
    by_cases hp : hits r c = true
    · rw [if_pos hp, if_pos hp]
      rfl
    · rw [if_neg hp, if_neg hp]
      rfl
  calc ((recs.flatMap fun r =>
          ((grid.filter (fun cb => hits r cb.2)).map (fun cb => (cb.1, r))).filter
            (fun row => row.1 == k))).map Prod.snd
      = recs.flatMap (fun r =>
          (((grid.filter (fun cb => hits r cb.2)).map (fun cb => (cb.1, r))).filter
            (fun row => row.1 == k)).map Prod.snd) := by
        rw [List.map_flatMap]
    _ = recs.flatMap (fun r => if hits r c then [r] else []) := by
        exact congrArg _ (funext hblock)
    _ = recs.filter (fun r => hits r c) := flatMap_ite_singleton recs _

/-- Every row of a grid-left join is keyed by a grid identifier. -/
theorem key_mem_of_mem_sjoinGridLeft {α : Type} (grid : List (String × Box))
    (recs : List α) (pos : α → ℚ × ℚ) (row : String × Option α)
    (hrow : row ∈ sjoinGridLeft grid recs pos) : row.1 ∈ grid.map Prod.fst := by
  unfold sjoinGridLeft at hrow
  obtain ⟨cb, hcb, hin⟩ := List.mem_flatMap.mp hrow
  refine List.mem_map.mpr ⟨cb, hcb, ?_⟩
  rcases hfilter : recs.filter (fun r => cb.2.containsPoint (pos r)) with _ | ⟨r, rs⟩
  · rw [hfilter] at hin
    rcases List.mem_singleton.mp hin with rfl
    rfl
  · rw [hfilter] at hin
    obtain ⟨r2, _, heq⟩ := List.mem_map.mp hin
    rw [← heq]

/-- Grouping the grid-left join by cell identifier: for each cell of a
duplicate-free grid, the group holds the contained records, or the single
NaN placeholder when there is none. -/
theorem groupVals_sjoinGridLeft {α : Type} (grid : List (String × Box))
    (recs : List α) (pos : α → ℚ × ℚ) (k : String) (c : Box)
    (hnd : (grid.map Prod.fst).Nodup) (hmem : (k, c) ∈ grid) :
    groupVals (sjoinGridLeft grid recs pos) k =
      if (recs.filter (fun r => c.containsPoint (pos r))).isEmpty then [none]
      else (recs.filter (fun r => c.containsPoint (pos r))).map some := by
  induction grid with
  | nil => cases hmem
  | cons g gs ih =>
      rw [List.map_cons, List.nodup_cons] at hnd
      rcases List.mem_cons.mp hmem with hg | hgs
      · subst hg
        have happ : sjoinGridLeft ((k, c) :: gs) recs pos =
            (match recs.filter (fun r => c.containsPoint (pos r)) with
             | [] => [(k, none)]
             | l => l.map (fun r => (k, some r))) ++ sjoinGridLeft gs recs pos := rfl
        have hrest : groupVals (sjoinGridLeft gs recs pos) k = [] := by
          unfold groupVals
          rw [List.map_eq_nil_iff, List.filter_eq_nil_iff]
          intro row hrow hk
          rw [beq_iff_eq] at hk
          apply hnd.1
          rw [← hk]
          exact key_mem_of_mem_sjoinGridLeft gs recs pos row hrow
        unfold groupVals at hrest ⊢
        rw [happ, List.filter_append, List.map_append, hrest, List.append_nil]
        rcases hfilter : recs.filter (fun r => c.containsPoint (pos r)) with _ | ⟨r, rs⟩
        · rw [if_pos List.isEmpty_nil]
          show (([(k, (none : Option α))]).filter (fun row => row.1 == k)).map Prod.snd = [none]
          simp [List.filter]
        · rw [if_neg (by simp)]
          show ((((r :: rs).map (fun r2 => (k, some r2))).filter
              (fun row => row.1 == k)).map Prod.snd) = (r :: rs).map some
          rw [List.filter_map]
          have hcomp : ((fun row : String × Option α => row.1 == k) ∘
              (fun r2 : α => (k, some r2))) = fun _ : α => true := by
            funext r2
            simp
          rw [hcomp, List.filter_true, List.map_map]
          rfl
      · have hgk : g.1 ≠ k := by
          intro hk
          apply hnd.1
          rw [hk]
          exact List.mem_map_of_mem Prod.fst hgs
        have happ : sjoinGridLeft (g :: gs) recs pos =
            (match recs.filter (fun r => g.2.containsPoint (pos r)) with
             | [] => [(g.1, none)]
             | l => l.map (fun r => (g.1, some r))) ++ sjoinGridLeft gs recs pos := rfl
        have hhead : groupVals
            (match recs.filter (fun r => g.2.containsPoint (pos r)) with
             | [] => [(g.1, none)]
             | l => l.map (fun r => (g.1, some r))) k = [] := by
          unfold groupVals
          rw [List.map_eq_nil_iff, List.filter_eq_nil_iff]
          intro row hrow hk
          rw [beq_iff_eq] at hk
          rcases hfilter : recs.filter (fun r => g.2.containsPoint (pos r)) with _ | ⟨r, rs⟩
          · rw [hfilter] at hrow
            rcases List.mem_singleton.mp hrow with rfl
            exact hgk hk
          · rw [hfilter] at hrow
            obtain ⟨r2, _, heq⟩ := List.mem_map.mp hrow
            apply hgk
            rw [← heq] at hk
            exact hk
        unfold groupVals at hhead ⊢
        rw [happ, List.filter_append, List.map_append, hhead, List.nil_append]
        exact ih hnd.2 hgs

/-- Reading one row of the map–filter–map dataframe pipeline used by
`compute_densite_etablissements`: build a value per grid cell, keep the
rows passing a condition, transform the kept values. -/
theorem lookup_pipeline {β γ : Type} (grid : List (String × Box))
    (v : String × Box → β) (q : β → Bool) (out : β → γ) (k : String) (c : Box)
    (hnd : (grid.map Prod.fst).Nodup) (hmem : (k, c) ∈ grid) :
    (((grid.map (fun cb => (cb.1, v cb))).filter (fun r => q r.2)).map
        (fun r => (r.1, out r.2))).lookup k =
      if q (v (k, c)) then some (out (v (k, c))) else none := by
  induction grid with
  | nil => cases hmem
  | cons g gs ih =>
      rw [List.map_cons, List.nodup_cons] at hnd
      rcases List.mem_cons.mp hmem with hg | hgs
      · subst hg
        have hrest : (((gs.map (fun cb => (cb.1, v cb))).filter (fun r => q r.2)).map
            (fun r => (r.1, out r.2))).lookup k = none := by
          apply lookup_eq_none_of_keys_ne
          intro row hrow
          obtain ⟨r2, hr2, heq⟩ := List.mem_map.mp hrow
          obtain ⟨r3, hr3, heq3⟩ := List.mem_map.mp (List.mem_of_mem_filter hr2)
          intro hk
          have hmemk : r3.1 ∈ List.map Prod.fst gs := List.mem_map_of_mem Prod.fst hr3
          have hkey : r3.1 = k := by
            rw [← hk, ← heq, ← heq3]
          rw [hkey] at hmemk
          exact hnd.1 hmemk
        rw [List.map_cons, List.filter_cons]
        by_cases hq : q (v (k, c)) = true
        · rw [if_pos (by simpa using hq), if_pos hq, List.map_cons]
          simp [List.lookup]
        · rw [if_neg (by simpa using hq), if_neg hq, hrest]
      · have hgk : g.1 ≠ k := by
          intro hk
          apply hnd.1
          rw [hk]
          exact List.mem_map_of_mem Prod.fst hgs
        rw [List.map_cons, List.filter_cons]
        by_cases hq : q (v g) = true
        · rw [if_pos (by simpa using hq), List.map_cons]
          have hbeq : (k == g.1) = false := by
            rw [beq_eq_false_iff_ne]
            exact Ne.symm hgk
          simp only [List.lookup, hbeq]
          exact ih hnd.2 hgs
        · rw [if_neg (by simpa using hq)]
          exact ih hnd.2 hgs

/-- C3, counterexample: the code weights every building by its full
footprint area in every cell it intersects, so cell "0" gets
(10·10000 + 20·10000) / 20000 = 15, while the overlap-weighted mean of
the claim is (10·5000 + 20·10000) / 15000 = 50/3. -/
theorem c3_counterexample_full_footprint_weight :
    (compute_hauteur_ponderee_surface gridTwoCells batiStraddle).lookup "0" = some 15 ∧
    hauteurPondereeOverlapSpec batiStraddle (Box.mk 0 0 200 200) = some (50 / 3) ∧
    (15 : ℚ) ≠ 50 / 3 := by
  with_unfolding_all decide

/-- C3, amended: for every cell of a duplicate-free grid, the weighted
mean uses the building's full footprint area as weight for every cell the
building intersects; cells intersected by no (filtered) building are
absent from the output, and for cells present the weight total is
strictly positive — the `Σ(weight) = 0` division can never occur because
buildings with non-positive footprint area are filtered out upstream. -/
theorem c3_weighted_mean_uses_full_areas (grid : List (String × Box))
    (bati : List Bati) (k : String) (c : Box)
    (hnd : (grid.map Prod.fst).Nodup) (hmem : (k, c) ∈ grid) :
    (let valid := (bati.filter (fun b => b.hauteur.isSome)).filter (fun b => 0 < b.geom.area)
     let g := valid.filter (fun b => b.geom.intersects c)
     ((compute_hauteur_ponderee_surface grid bati).lookup k =
        if g = [] then none
        else some ((g.map (fun b => b.hauteur.getD 0 * b.geom.area)).sum /
          (g.map (fun b => b.geom.area)).sum)) ∧
     (g ≠ [] → 0 < (g.map (fun b => b.geom.area)).sum)) := by
  intro valid g
  have hgv : groupVals (sjoinInner valid grid (fun b cb => b.geom.intersects cb)) k = g :=
    groupVals_sjoinInner valid grid _ k c hnd hmem
  constructor
  · unfold compute_hauteur_ponderee_surface
    rw [lookup_map_self]
    simp only [mem_groupKeys_iff, hgv]
    by_cases hg : g = []
    · rw [if_neg (by simp [hg]), if_pos hg]
    · rw [if_pos hg, if_neg hg]
  · intro hne
    apply List.sum_pos
    · intro a ha
      obtain ⟨b, hb, rfl⟩ := List.mem_map.mp ha
      exact (List.mem_filter.mp (List.mem_of_mem_filter hb)).2 |> fun h => by
        simpa using List.mem_filter.mp (List.mem_of_mem_filter hb) |>.2
    · simpa using hne

/-- C3, witness: the amended theorem instantiated at the straddling
scenario; cell "0" is intersected by both buildings, total weight 20000. -/
theorem c3_witness :
    ((gridTwoCells.map Prod.fst).Nodup ∧ ("0", Box.mk 0 0 200 200) ∈ gridTwoCells) ∧
    ((compute_hauteur_ponderee_surface gridTwoCells batiStraddle).lookup "0" =
      if ((batiStraddle.filter (fun b => b.hauteur.isSome)).filter
            (fun b => 0 < b.geom.area)).filter
            (fun b => b.geom.intersects (Box.mk 0 0 200 200)) = [] then none
      else some (((((batiStraddle.filter (fun b => b.hauteur.isSome)).filter
            (fun b => 0 < b.geom.area)).filter
            (fun b => b.geom.intersects (Box.mk 0 0 200 200))).map
              (fun b => b.hauteur.getD 0 * b.geom.area)).sum /
          ((((batiStraddle.filter (fun b => b.hauteur.isSome)).filter
            (fun b => 0 < b.geom.area)).filter
            (fun b => b.geom.intersects (Box.mk 0 0 200 200))).map
              (fun b => b.geom.area)).sum)) :=
  ⟨⟨by decide, by decide⟩,
   (c3_weighted_mean_uses_full_areas gridTwoCells batiStraddle "0" (Box.mk 0 0 200 200)
      (by decide) (by decide)).1⟩

/-- C5, counterexample: cell "0" contains 3 establishments but its built
surface basis 5 is below the threshold 10, and the cell is silently
dropped from the output (the output is empty) instead of being assigned
an explicit undefined marker. -/
theorem c5_counterexample_cell_dropped_not_marked :
    compute_densite_etablissements gridOneCell threePoints [("0", 5)] = [] ∧
    (threePoints.filter (fun p => (Box.mk 0 0 100 100).containsPoint p)).length = 3 := by
  with_unfolding_all decide

/-- C5, amended: for every cell of a duplicate-free grid, the output has a
row for the cell iff its basis (the built-surface value, 0 when missing)
exceeds 10; such a row holds `size / basis` where `size` is the left-join
group size — the number of contained establishments, except that an empty
cell contributes its single NaN placeholder row and is counted as 1.
Cells at or below the threshold are omitted from the output entirely. -/
theorem c5_below_threshold_cells_are_dropped (grid : List (String × Box))
    (sirene : List (ℚ × ℚ)) (surf : List (String × ℚ)) (k : String) (c : Box)
    (hnd : (grid.map Prod.fst).Nodup) (hmem : (k, c) ∈ grid) :
    (compute_densite_etablissements grid sirene surf).lookup k =
      if 10 < ((surf.lookup k).getD 0 : ℚ) then
        some ((max 1 (sirene.filter (fun p => c.containsPoint p)).length : ℕ) /
          ((surf.lookup k).getD 0 : ℚ))
      else none := by
  set basis : ℚ := (surf.lookup k).getD 0 with hbasis
  set m := (sirene.filter (fun p => c.containsPoint p)).length with hmdef
  unfold compute_densite_etablissements
  have hgv : groupVals (sjoinGridLeft grid sirene id) k =
      if (sirene.filter (fun p => c.containsPoint p)).isEmpty then [none]
      else (sirene.filter (fun p => c.containsPoint p)).map some := by
    have h0 := groupVals_sjoinGridLeft grid sirene id k c hnd hmem
    simpa only [id_eq] using h0
  have hlen : (groupVals (sjoinGridLeft grid sirene id) k).length = max 1 m := by
    rw [hgv]
    rcases hfilter : sirene.filter (fun p => c.containsPoint p) with _ | ⟨p, ps⟩
    · have hm : m = 0 := by
        simp only [hmdef, hfilter, List.length_nil]
      rw [hm, if_pos List.isEmpty_nil]
      rfl
    · have hm : m = ps.length + 1 := by
        simp only [hmdef, hfilter, List.length_cons]
      rw [hm, if_neg (by simp)]
      simp [Nat.max_eq_right (Nat.succ_le_succ (Nat.zero_le _))]
  have hcount : (((groupKeys (sjoinGridLeft grid sirene id)).map
      (fun k2 => (k2, (groupVals (sjoinGridLeft grid sirene id) k2).length))).lookup k) =
      some (max 1 m) := by
    rw [lookup_map_self, if_pos, hlen]
    rw [mem_groupKeys_iff, hgv]
    rcases sirene.filter (fun p => c.containsPoint p) with _ | ⟨p, ps⟩ <;> simp
  have hpipe := lookup_pipeline grid
    (fun cb => (((((groupKeys (sjoinGridLeft grid sirene id)).map
      (fun k2 => (k2, (groupVals (sjoinGridLeft grid sirene id) k2).length))).lookup cb.1).getD 0 : ℕ),
      ((surf.lookup cb.1).getD 0 : ℚ)))
    (fun r => 10 < r.2) (fun r => ((r.1 : ℕ) : ℚ) / r.2) k c hnd hmem
  rw [hpipe]
  simp only [hcount, Option.getD_some, ← hbasis, decide_eq_true_eq]

/-- C5, witness: the amended theorem at the counterexample instance —
basis 5 is not above 10, so the lookup is `none` (no row at all). -/
theorem c5_witness :
    ((gridOneCell.map Prod.fst).Nodup ∧ ("0", Box.mk 0 0 100 100) ∈ gridOneCell) ∧
    (compute_densite_etablissements gridOneCell threePoints [("0", 5)]).lookup "0" =
      (if (10 : ℚ) < (([("0", (5 : ℚ))].lookup "0").getD 0) then
        some ((max 1 (threePoints.filter
          (fun p => (Box.mk 0 0 100 100).containsPoint p)).length : ℕ) /
          (([("0", (5 : ℚ))].lookup "0").getD 0))
      else none) :=
  ⟨⟨by decide, by decide⟩,
   c5_below_threshold_cells_are_dropped gridOneCell threePoints [("0", 5)] "0"
     (Box.mk 0 0 100 100) (by decide) (by decide)⟩

/-- The entropy of an empty category list is the number 0. -/
theorem entropyCats_nil : entropyCats [] = 0 := by
  simp [entropyCats]

/-- Entropy vanishes when every observed category is the same. -/
theorem entropyCats_const (cats : List String) (f0 : String)
    (h : ∀ x ∈ cats, x = f0) : entropyCats cats = 0 := by
  unfold entropyCats
  rw [List.sum_eq_zero, neg_zero]
  intro x hx
  obtain ⟨cat, hcat, rfl⟩ := List.mem_map.mp hx
  have hcatmem : cat ∈ cats := List.mem_dedup.mp hcat
  have hcount : cats.count cat = cats.length := by
    rw [List.count_eq_length]
    intro b hb
    rw [h b hb, h cat hcatmem]
  have hlen : (cats.length : ℝ) ≠ 0 := by
    have : cats ≠ [] := List.ne_nil_of_mem hcatmem
    simpa using List.length_pos.mpr this |>.ne'
  rw [hcount, div_self hlen, Real.log_one, mul_zero]

/-- Entropy is nonnegative. -/
theorem entropyCats_nonneg (cats : List String) : 0 ≤ entropyCats cats := by
  unfold entropyCats
  rw [neg_nonneg]
  have h0 : ((cats.dedup.map (fun _ => (0 : ℝ))).sum) = 0 := by simp
  calc ((cats.dedup).map (fun cat =>
        ((cats.count cat : ℝ) / (cats.length : ℝ)) *
          Real.log ((cats.count cat : ℝ) / (cats.length : ℝ)))).sum
      ≤ ((cats.dedup).map (fun _ => (0 : ℝ))).sum := by
        apply List.sum_le_sum
        intro cat hcat
        have hcatmem : cat ∈ cats := List.mem_dedup.mp hcat
        have hcnt : 0 < cats.count cat := List.count_pos_iff.mpr hcatmem
        have hlen : 0 < cats.length := List.length_pos.mpr (List.ne_nil_of_mem hcatmem)
        have hp : 0 < ((cats.count cat : ℝ) / (cats.length : ℝ)) := by
          apply div_pos <;> exact_mod_cast by assumption
        have hple : ((cats.count cat : ℝ) / (cats.length : ℝ)) ≤ 1 := by
          rw [div_le_one (by exact_mod_cast hlen)]
          exact_mod_cast List.count_le_length cat cats
        exact mul_nonpos_iff.mpr (Or.inl ⟨hp.le, Real.log_nonpos hp.le hple⟩)
    _ = 0 := h0

/-- Gibbs bound: entropy over k distinct observed categories is at most
`log k`. -/
theorem entropyCats_le_log (cats : List String) (hne : cats ≠ []) :
    entropyCats cats ≤ Real.log (cats.dedup.length : ℝ) := by
  have hdedupFinset : cats.dedup.toFinset = cats.toFinset := by
    ext a
    simp [List.mem_toFinset, List.mem_dedup]
  set S : Finset String := cats.toFinset with hS
  set n : ℝ := (cats.length : ℝ) with hn
  set kK : ℝ := (cats.dedup.length : ℝ) with hkK
  have hnpos : 0 < n := by
    rw [hn]
    exact_mod_cast List.length_pos.mpr hne
  have hkpos : 0 < kK := by
    rw [hkK]
    have : cats.dedup ≠ [] := by
      intro hnil
      exact hne ((List.dedup_eq_nil cats).mp hnil)
    exact_mod_cast List.length_pos.mpr this
  have hlist : entropyCats cats =
      -(S.sum (fun cat => ((cats.count cat : ℝ) / n) * Real.log ((cats.count cat : ℝ) / n))) := by
    unfold entropyCats
    rw [← List.sum_toFinset _ cats.nodup_dedup, hdedupFinset]
  have hcount_sum : S.sum (fun cat => ((cats.count cat : ℝ))) = n := by
    rw [hS, hn]
    exact_mod_cast congrArg (fun m : ℕ => (m : ℝ)) (List.sum_toFinset_count_eq_length cats)
  have hp_sum : S.sum (fun cat => ((cats.count cat : ℝ) / n)) = 1 := by
    rw [(Finset.sum_div S _ n).symm, hcount_sum, div_self hnpos.ne']
  have hpoint : ∀ cat ∈ S,
      (-(((cats.count cat : ℝ) / n)) * Real.log kK - 1 / kK + ((cats.count cat : ℝ) / n)) ≤
        ((cats.count cat : ℝ) / n) * Real.log ((cats.count cat : ℝ) / n) := by
    intro cat hcat
    have hcatmem : cat ∈ cats := List.mem_toFinset.mp hcat
    have hcnt : (0 : ℝ) < (cats.count cat : ℝ) := by
      exact_mod_cast List.count_pos_iff.mpr hcatmem
    have hp : 0 < ((cats.count cat : ℝ) / n) := div_pos hcnt hnpos
    set p : ℝ := ((cats.count cat : ℝ) / n) with hpdef
    have hx : (0 : ℝ) < (kK * p)⁻¹ := by positivity
    have hlog := Real.log_le_sub_one_of_pos hx
    rw [Real.log_inv, Real.log_mul hkpos.ne' hp.ne'] at hlog
    have hstep : -Real.log kK - (kK * p)⁻¹ + 1 ≤ Real.log p := by linarith
    have hmul := mul_le_mul_of_nonneg_left hstep hp.le
    calc -p * Real.log kK - 1 / kK + p
        = p * (-Real.log kK - (kK * p)⁻¹ + 1) := by
          field_simp
          ring
      _ ≤ p * Real.log p := hmul
      _ = p * Real.log p := rfl
  have hsum := Finset.sum_le_sum hpoint
  have hlhs : S.sum (fun cat =>
      (-(((cats.count cat : ℝ) / n)) * Real.log kK - 1 / kK + ((cats.count cat : ℝ) / n))) =
      -Real.log kK := by
    have hsplit : S.sum (fun cat =>
        (-(((cats.count cat : ℝ) / n)) * Real.log kK - 1 / kK + ((cats.count cat : ℝ) / n))) =
        S.sum (fun cat => -(((cats.count cat : ℝ) / n)) * Real.log kK) -
          S.sum (fun _ => (1 : ℝ) / kK) + S.sum (fun cat => ((cats.count cat : ℝ) / n)) := by
      rw [Finset.sum_add_distrib, Finset.sum_sub_distrib]
    have h1 : S.sum (fun cat => -(((cats.count cat : ℝ) / n)) * Real.log kK) =
        -Real.log kK := by
      rw [show (fun cat => -(((cats.count cat : ℝ) / n)) * Real.log kK)
          = (fun cat => Real.log kK * -(((cats.count cat : ℝ) / n))) from by
        funext cat
        ring]
      rw [← Finset.mul_sum, Finset.sum_neg_distrib, hp_sum]
      ring
    have h2 : S.sum (fun _ => (1 : ℝ) / kK) = 1 := by
      rw [Finset.sum_const, nsmul_eq_mul]
      have hcard : (S.card : ℝ) = kK := by
        rw [hS, hkK]
        exact_mod_cast congrArg (fun m : ℕ => (m : ℝ)) (List.card_toFinset cats)
      rw [hcard]
      field_simp
    rw [hsplit, h1, h2, hp_sum]
    ring
  rw [hlist]
  rw [hlhs] at hsum
  linarith

/-- The observed categories of a cell's group: the left-join placeholder
NaN is dropped by `value_counts`, leaving the functions of the contained
establishments. -/
theorem cats_of_group (grid : List (String × Box)) (etabs : List Etab)
    (k : String) (c : Box) (hnd : (grid.map Prod.fst).Nodup) (hmem : (k, c) ∈ grid) :
    ((groupVals (sjoinGridLeft grid (etabs.map (fun e => (e.pos, fonction e))) Prod.fst) k).map
        (fun o => o.map Prod.snd)).filterMap id =
      (etabs.filter (fun e => c.containsPoint e.pos)).map fonction := by
  have hgv := groupVals_sjoinGridLeft grid (etabs.map (fun e => (e.pos, fonction e)))
    Prod.fst k c hnd hmem
  have hfg : (etabs.map (fun e => (e.pos, fonction e))).filter
      (fun r => c.containsPoint r.1) =
      (etabs.filter (fun e => c.containsPoint e.pos)).map (fun e => (e.pos, fonction e)) := by
    rw [List.filter_map]
    rfl
  rw [hfg] at hgv
  by_cases hnil : etabs.filter (fun e => c.containsPoint e.pos) = []
  · rw [hnil] at hgv
    rw [hnil]
    rw [show ((([] : List Etab).map (fun e => (e.pos, fonction e))).isEmpty) = true from rfl] at hgv
    rw [if_pos rfl] at hgv
    rw [hgv]
    rfl
  · have hne : ((etabs.filter (fun e => c.containsPoint e.pos)).map
        (fun e => (e.pos, fonction e))).isEmpty = false := by
      rcases hl : etabs.filter (fun e => c.containsPoint e.pos) with _ | ⟨e, es⟩
      · exact absurd hl hnil
      · rw [hl]
        rfl
    rw [if_neg (by rw [hne]; exact Bool.false_ne_true)] at hgv
    rw [hgv]
    generalize etabs.filter (fun e => c.containsPoint e.pos) = l
    induction l with
    | nil => rfl
    | cons e es ih =>
        show fonction e :: (((es.map (fun e2 => (e2.pos, fonction e2))).map some).map
            (fun o => o.map Prod.snd)).filterMap id = fonction e :: es.map fonction
        exact congrArg (List.cons (fonction e)) ih

/-- C4, counterexample: a cell containing no establishment record is
assigned the numeric value 0 by the code — the left join keeps a NaN
placeholder row, `value_counts()` drops it, and the entropy of the empty
distribution evaluates to `-0.0` — whereas the claim requires the
undefined marker for an empty cell. -/
theorem c4_counterexample_empty_cell_gets_zero :
    (compute_indice_mixite_fonctionnelle gridOneCell []).lookup "0" = some 0 ∧
    entropySpec [none] = none := by
  constructor
  · have h1 : compute_indice_mixite_fonctionnelle gridOneCell [] =
        [("0", entropy [none])] := by
      with_unfolding_all rfl
    rw [h1]
    have h2 : entropy [none] = 0 := by
      show entropyCats (([none] : List (Option String)).filterMap id) = 0
      rw [show (([none] : List (Option String)).filterMap id) = [] from rfl, entropyCats_nil]
    rw [h2]
    rfl
  · rfl

/-- C4, amended: every grid cell of a duplicate-free grid gets a defined
entropy value `-Σ p·ln p` over the observed category proportions of the
establishments it contains; a single-category cell has entropy exactly 0;
a cell with no records gets the numeric value 0 (not an undefined
marker); and the value always lies in `[0, ln k]` for `k` the number of
distinct observed categories. -/
theorem c4_entropy_characterisation (grid : List (String × Box)) (etabs : List Etab)
    (k : String) (c : Box) (hnd : (grid.map Prod.fst).Nodup) (hmem : (k, c) ∈ grid) :
    (let cats := (etabs.filter (fun e => c.containsPoint e.pos)).map fonction
     ((compute_indice_mixite_fonctionnelle grid etabs).lookup k = some (entropyCats cats)) ∧
     (cats = [] → (compute_indice_mixite_fonctionnelle grid etabs).lookup k = some 0) ∧
     (∀ f0, (∀ x ∈ cats, x = f0) → entropyCats cats = 0) ∧
     0 ≤ entropyCats cats ∧
     (cats ≠ [] → entropyCats cats ≤ Real.log (cats.dedup.length : ℝ))) := by
  intro cats
  have hcats := cats_of_group grid etabs k c hnd hmem
  have hgv := groupVals_sjoinGridLeft grid (etabs.map (fun e => (e.pos, fonction e)))
    Prod.fst k c hnd hmem
  have hmemK : k ∈ groupKeys (sjoinGridLeft grid
      (etabs.map (fun e => (e.pos, fonction e))) Prod.fst) := by
    rw [mem_groupKeys_iff, hgv]
    by_cases h : ((etabs.map (fun e => (e.pos, fonction e))).filter
        (fun r => c.containsPoint r.1)).isEmpty = true
    · rw [if_pos h]
      simp
    · rw [if_neg h]
      intro hc
      rw [List.map_eq_nil_iff] at hc
      rw [hc] at h
      exact h rfl
  have hmain : (compute_indice_mixite_fonctionnelle grid etabs).lookup k =
      some (entropyCats cats) := by
    unfold compute_indice_mixite_fonctionnelle
    rw [lookup_map_self, if_pos hmemK]
    congr 1
    show entropyCats _ = entropyCats cats
    rw [hcats]
  refine ⟨hmain, ?_, ?_, entropyCats_nonneg cats, entropyCats_le_log cats⟩
  · intro hnil
    rw [hmain, hnil, entropyCats_nil]
  · intro f0 h
    exact entropyCats_const cats f0 h

/-- C4, witness: the amended theorem instantiated at a single-cell grid
holding two same-category establishments. -/
theorem c4_witness :
    ((gridOneCell.map Prod.fst).Nodup ∧ ("0", Box.mk 0 0 100 100) ∈ gridOneCell) ∧
    ((compute_indice_mixite_fonctionnelle gridOneCell etabsTwoRetail).lookup "0" =
      some (entropyCats ((etabsTwoRetail.filter
        (fun e => (Box.mk 0 0 100 100).containsPoint e.pos)).map fonction))) :=
  ⟨⟨by decide, by decide⟩,
   (c4_entropy_characterisation gridOneCell etabsTwoRetail "0" (Box.mk 0 0 100 100)
     (by decide) (by decide)).1⟩

/-- `compute_mean_distance` with the branch condition exposed. -/
theorem compute_mean_distance_eq (group : String × List (ℚ × ℚ)) :
    compute_mean_distance group =
      (group.1, if 1 < group.2.length then some (pdistMean group.2) else none) := by
  unfold compute_mean_distance
  split
  · rfl
  · rfl

/-- C9, counterexample: a grid cell with zero building records produces no
output row at all — the inner join drops the cell — whereas the claim
requires the undefined marker for every cell with fewer than two records. -/
theorem c9_counterexample_empty_cell_has_no_row :
    compute_distance_moyenne_batiments gridOneCell [] = [] ∧
    (compute_distance_moyenne_batiments gridOneCell []).lookup "0" = none := by
  constructor
  · with_unfolding_all rfl
  · with_unfolding_all rfl

/-- C9, amended: for every cell of a duplicate-free grid, a cell whose
contained centroids number at least two gets the mean of all pairwise
Euclidean distances; a cell with exactly one centroid gets the NaN
marker; and a cell with no centroid is absent from the output (rather
than carrying the marker). -/
theorem c9_mean_pairwise_distance (grid : List (String × Box)) (bati : List Box)
    (k : String) (c : Box) (hnd : (grid.map Prod.fst).Nodup) (hmem : (k, c) ∈ grid) :
    (let pts := (bati.map centroid).filter (fun p => c.containsPoint p)
     (1 < pts.length →
        (compute_distance_moyenne_batiments grid bati).lookup k = some (some (pdistMean pts))) ∧
     (pts.length = 1 →
        (compute_distance_moyenne_batiments grid bati).lookup k = some none) ∧
     (pts = [] → (compute_distance_moyenne_batiments grid bati).lookup k = none)) := by
  intro pts
  have hgv : groupVals (sjoinInner (bati.map centroid) grid
      (fun p cb => cb.containsPoint p)) k = pts :=
    groupVals_sjoinInner (bati.map centroid) grid _ k c hnd hmem
  have hfun : (fun k2 => compute_mean_distance (k2,
      groupVals (sjoinInner (bati.map centroid) grid (fun p cb => cb.containsPoint p)) k2)) =
      (fun k2 => (k2, if 1 < (groupVals (sjoinInner (bati.map centroid) grid
        (fun p cb => cb.containsPoint p)) k2).length then
          some (pdistMean (groupVals (sjoinInner (bati.map centroid) grid
            (fun p cb => cb.containsPoint p)) k2)) else none)) := by
    funext k2
    exact compute_mean_distance_eq _
  have hlook : (compute_distance_moyenne_batiments grid bati).lookup k =
      if k ∈ groupKeys (sjoinInner (bati.map centroid) grid (fun p cb => cb.containsPoint p))
      then some (if 1 < pts.length then some (pdistMean pts) else none) else none := by
    unfold compute_distance_moyenne_batiments
    show List.lookup k ((groupKeys (sjoinInner (bati.map centroid) grid
        (fun p cb => cb.containsPoint p))).map (fun k2 => compute_mean_distance (k2,
        groupVals (sjoinInner (bati.map centroid) grid (fun p cb => cb.containsPoint p)) k2))) =
      if k ∈ groupKeys (sjoinInner (bati.map centroid) grid (fun p cb => cb.containsPoint p))
      then some (if 1 < pts.length then some (pdistMean pts) else none) else none
    rw [hfun, lookup_map_self, hgv]
  refine ⟨?_, ?_, ?_⟩
  · intro hlen
    rw [hlook, if_pos, if_pos hlen]
    rw [mem_groupKeys_iff, hgv]
    intro hnil
    rw [hnil] at hlen
    exact absurd hlen (by simp)
  · intro hlen
    rw [hlook, if_pos, if_neg (by rw [hlen]; exact lt_irrefl 1)]
    rw [mem_groupKeys_iff, hgv]
    intro hnil
    rw [hnil] at hlen
    exact absurd hlen (by simp)
  · intro hnil
    rw [hlook, if_neg]
    rw [mem_groupKeys_iff, hgv]
    intro hko
    exact hko hnil

/-- C9, witness: the amended theorem at a cell holding two centroids. -/
theorem c9_witness :
    ((gridTwoCells.map Prod.fst).Nodup ∧ ("0", Box.mk 0 0 200 200) ∈ gridTwoCells ∧
      1 < ((batiTwoInCellZero.map centroid).filter
        (fun p => (Box.mk 0 0 200 200).containsPoint p)).length) ∧
    (compute_distance_moyenne_batiments gridTwoCells batiTwoInCellZero).lookup "0" =
      some (some (pdistMean ((batiTwoInCellZero.map centroid).filter
        (fun p => (Box.mk 0 0 200 200).containsPoint p)))) :=
  ⟨⟨by decide, by decide, by with_unfolding_all decide⟩,
   (c9_mean_pairwise_distance gridTwoCells batiTwoInCellZero "0" (Box.mk 0 0 200 200)
     (by decide) (by decide)).1 (by with_unfolding_all decide)⟩

/-- C10: every cell of a duplicate-free grid has a row in the job-estimate
output, and a cell containing no establishment point gets the numeric
value 0 (the left join keeps a placeholder row per empty cell and the
NaN-skipping group sum of it is 0), not a missing marker. -/
theorem c10_empty_cells_get_zero (grid : List (String × Box)) (etabs : List EtabSirene)
    (k : String) (c : Box) (hnd : (grid.map Prod.fst).Nodup) (hmem : (k, c) ∈ grid) :
    ((compute_emplois_estimes_pondere grid etabs).lookup k ≠ none) ∧
    (etabs.filter (fun e => c.containsPoint e.pos) = [] →
      (compute_emplois_estimes_pondere grid etabs).lookup k = some 0) := by
  have hgv := groupVals_sjoinGridLeft grid
    (etabs.map (fun e => (e.pos, emplois_estimes etabs e))) Prod.fst k c hnd hmem
  have hfg : (etabs.map (fun e => (e.pos, emplois_estimes etabs e))).filter
      (fun r => c.containsPoint r.1) =
      (etabs.filter (fun e => c.containsPoint e.pos)).map
        (fun e => (e.pos, emplois_estimes etabs e)) := by
    rw [List.filter_map]
    rfl
  rw [hfg] at hgv
  have hmemK : k ∈ groupKeys (sjoinGridLeft grid
      (etabs.map (fun e => (e.pos, emplois_estimes etabs e))) Prod.fst) := by
    rw [mem_groupKeys_iff, hgv]
    by_cases h : (((etabs.filter (fun e => c.containsPoint e.pos)).map
        (fun e => (e.pos, emplois_estimes etabs e))).isEmpty) = true
    · rw [if_pos h]
      simp
    · rw [if_neg h]
      intro hc
      rw [List.map_eq_nil_iff, List.map_eq_nil_iff] at hc
      rw [hc] at h
      exact h rfl
  have hlook : (compute_emplois_estimes_pondere grid etabs).lookup k =
      some (((groupVals (sjoinGridLeft grid
        (etabs.map (fun e => (e.pos, emplois_estimes etabs e))) Prod.fst) k).filterMap
          (fun o => o.map Prod.snd)).sum) := by
    unfold compute_emplois_estimes_pondere
    rw [lookup_map_self, if_pos hmemK]
  constructor
  · rw [hlook]
    exact Option.some_ne_none _
  · intro hnil
    rw [hlook, hgv, hnil]
    rfl

/-- C10, witness: a single-cell grid and one establishment outside the
cell — the cell is empty, its output value is 0. -/
theorem c10_witness :
    ((gridOneCell.map Prod.fst).Nodup ∧ ("0", Box.mk 0 0 100 100) ∈ gridOneCell ∧
      ([EtabSirene.mk (500, 500) "4711B" "01"].filter
        (fun e => (Box.mk 0 0 100 100).containsPoint e.pos)) = []) ∧
    (compute_emplois_estimes_pondere gridOneCell
      [EtabSirene.mk (500, 500) "4711B" "01"]).lookup "0" = some 0 :=
  ⟨⟨by decide, by decide, by with_unfolding_all decide⟩,
   (c10_empty_cells_get_zero gridOneCell [EtabSirene.mk (500, 500) "4711B" "01"] "0"
     (Box.mk 0 0 100 100) (by decide) (by decide)).2 (by with_unfolding_all decide)⟩

/-- In a key-unique row list, filtering for one present key finds exactly
its row. -/
theorem filter_eq_singleton_of_nodup {β : Type} (l : List (String × β)) (key : String)
    (v : β) (hnd : (l.map Prod.fst).Nodup) (hmem : (key, v) ∈ l) :
    l.filter (fun r => r.1 == key) = [(key, v)] := by
  induction l with
  | nil => cases hmem
  | cons g gs ih =>
      rw [List.map_cons, List.nodup_cons] at hnd
      rcases List.mem_cons.mp hmem with hg | hgs
      · subst hg
        rw [List.filter_cons, if_pos (by simp)]
        rw [List.filter_eq_nil_iff.mpr, List.cons.injEq]
        · exact ⟨rfl, rfl⟩
        · intro row hrow hk
          rw [beq_iff_eq] at hk
          have : row.1 ∈ gs.map Prod.fst := List.mem_map_of_mem Prod.fst hrow
          rw [hk] at this
          exact hnd.1 this
      · have hgk : g.1 ≠ key := by
          intro hk
          apply hnd.1
          rw [hk]
          exact List.mem_map_of_mem Prod.fst hgs
        rw [List.filter_cons, if_neg (by simp [hgk])]
        exact ih hnd.2 hgs

/-- The matched part of the outer merge carries exactly the left keys,
provided the right table is key-unique. -/
theorem outerMerge_left_keys (rows1 : List (String × List (Option ℚ))) (t2 : FTab)
    (h2 : (t2.rows.map Prod.fst).Nodup) :
    ((rows1.flatMap (fun r =>
        match t2.rows.filter (fun r2 => r2.1 == r.1) with
        | [] => [(r.1, r.2 ++ List.replicate t2.width none)]
        | ms => ms.map (fun r2 => (r.1, r.2 ++ r2.2)))).map Prod.fst) =
      rows1.map Prod.fst := by
  induction rows1 with
  | nil => rfl
  | cons r rs ih =>
      rw [List.flatMap_cons, List.map_append, ih, List.map_cons]
      by_cases hk : r.1 ∈ t2.rows.map Prod.fst
      · obtain ⟨⟨key2, v⟩, hmm, heq⟩ := List.mem_map.mp hk
        have hkey : key2 = r.1 := heq
        subst hkey
        rw [filter_eq_singleton_of_nodup t2.rows r.1 v h2 hmm]
        rfl
      · rw [List.filter_eq_nil_iff.mpr]
        · rfl
        · intro row hrow hbeq
          rw [beq_iff_eq] at hbeq
          apply hk
          rw [← hbeq]
          exact List.mem_map_of_mem Prod.fst hrow

/-- Key structure of one outer merge of key-unique tables: the keys stay
duplicate-free and are exactly the union of the two key sets. -/
theorem outerMerge_keys (t1 t2 : FTab)
    (h1 : (t1.rows.map Prod.fst).Nodup) (h2 : (t2.rows.map Prod.fst).Nodup) :
    (((outerMerge t1 t2).rows.map Prod.fst).Nodup) ∧
    (∀ x, x ∈ (outerMerge t1 t2).rows.map Prod.fst ↔
      x ∈ t1.rows.map Prod.fst ∨ x ∈ t2.rows.map Prod.fst) := by
  have hleft := outerMerge_left_keys t1.rows t2 h2
  have hright : (((t2.rows.filter (fun r2 => t1.rows.all (fun r => !(r.1 == r2.1)))).map
      (fun r2 => (r2.1, List.replicate t1.width none ++ r2.2))).map Prod.fst) =
      (t2.rows.filter (fun r2 => t1.rows.all (fun r => !(r.1 == r2.1)))).map Prod.fst := by
    rw [List.map_map]
    rfl
  have hkeys : (outerMerge t1 t2).rows.map Prod.fst =
      t1.rows.map Prod.fst ++
        (t2.rows.filter (fun r2 => t1.rows.all (fun r => !(r.1 == r2.1)))).map Prod.fst := by
    show ((t1.rows.flatMap _) ++ _).map Prod.fst = _
    rw [List.map_append, hleft, hright]
  have hnotin : ∀ x ∈ (t2.rows.filter
      (fun r2 => t1.rows.all (fun r => !(r.1 == r2.1)))).map Prod.fst,
      x ∉ t1.rows.map Prod.fst := by
    intro x hx hx1
    obtain ⟨r2, hr2, heq⟩ := List.mem_map.mp hx
    have hall := (List.mem_filter.mp hr2).2
    rw [List.all_eq_true] at hall
    obtain ⟨r1, hr1, heq1⟩ := List.mem_map.mp hx1
    have := hall r1 hr1
    rw [heq1, ← heq] at this
    simp at this
  constructor
  · rw [hkeys, List.nodup_append]
    refine ⟨h1, ?_, ?_⟩
    · have hsub : ((t2.rows.filter
          (fun r2 => t1.rows.all (fun r => !(r.1 == r2.1)))).map Prod.fst).Sublist
          (t2.rows.map Prod.fst) :=
        (List.filter_sublist _).map Prod.fst
      exact h2.sublist hsub
    · intro a ha hmem2
      exact hnotin a hmem2 ha
  · intro x
    rw [hkeys, List.mem_append]
    constructor
    · rintro (hx | hx)
      · exact Or.inl hx
      · obtain ⟨r2, hr2, heq⟩ := List.mem_map.mp hx
        exact Or.inr (by
          rw [← heq]
          exact List.mem_map_of_mem Prod.fst (List.mem_of_mem_filter hr2))
    · rintro (hx | hx)
      · exact Or.inl hx
      · by_cases hx1 : x ∈ t1.rows.map Prod.fst
        · exact Or.inl hx1
        · refine Or.inr ?_
          obtain ⟨r2, hr2, heq⟩ := List.mem_map.mp hx
          refine List.mem_map.mpr ⟨r2, List.mem_filter.mpr ⟨hr2, ?_⟩, heq⟩
          rw [List.all_eq_true]
          intro r1 hr1
          have hne2 : r1.1 ≠ r2.1 := by
            intro hcontra
            apply hx1
            rw [← heq, ← hcontra]
            exact List.mem_map_of_mem Prod.fst hr1
          simp [hne2]

/-- Folding the outer merge over key-unique tables keeps the keys
duplicate-free and accumulates exactly the union of the key sets. -/
theorem foldl_outerMerge_keys (fs : List FTab) :
    ∀ acc : FTab, ((acc.rows.map Prod.fst).Nodup) →
      (∀ t ∈ fs, (t.rows.map Prod.fst).Nodup) →
      (((fs.foldl outerMerge acc).rows.map Prod.fst).Nodup ∧
       (∀ x, x ∈ (fs.foldl outerMerge acc).rows.map Prod.fst ↔
         x ∈ acc.rows.map Prod.fst ∨ ∃ t ∈ fs, x ∈ t.rows.map Prod.fst)) := by
  induction fs with
  | nil =>
      intro acc hacc _
      exact ⟨hacc, fun x => by simp⟩
  | cons f fs ih =>
      intro acc hacc hall
      have hf := hall f (List.mem_cons_self f fs)
      have hmerge := outerMerge_keys acc f hacc hf
      have hrec := ih (outerMerge acc f) hmerge.1
        (fun t ht => hall t (List.mem_cons_of_mem f ht))
      refine ⟨hrec.1, fun x => ?_⟩
      rw [List.foldl_cons]
      rw [hrec.2 x]
      rw [hmerge.2 x]
      constructor
      · rintro ((hx | hx) | ⟨t, ht, hx⟩)
        · exact Or.inl hx
        · exact Or.inr ⟨f, List.mem_cons_self f fs, hx⟩
        · exact Or.inr ⟨t, List.mem_cons_of_mem f ht, hx⟩
      · rintro (hx | ⟨t, ht, hx⟩)
        · exact Or.inl (Or.inl hx)
        · rcases List.mem_cons.mp ht with rfl | ht2
          · exact Or.inl (Or.inr hx)
          · exact Or.inr ⟨t, ht2, hx⟩

/-- C6, counterexample: merging a column holding the duplicate identifier
"0" raises nothing — the fold returns a table with two rows keyed "0"
(the merge multiplies matching pairs) instead of failing with a
`SchemaError`; and the identifier "1", present in the tessellation but in
no feature file, has no row in the merged table. -/
theorem c6_counterexample_duplicates_and_missing_cells :
    (fusion_features [FTab.mk 1 [("0", [some 1])],
        FTab.mk 1 [("0", [some 2]), ("0", [some 3])]]).map
      (fun t => t.rows.map Prod.fst) = some ["0", "0"] ∧
    (fusion_features [FTab.mk 1 [("0", [some 1])]]).map
      (fun t => t.rows.map Prod.fst) = some ["0"] := by
  with_unfolding_all decide

/-- C6, amended: the assembler is a fold of pairwise outer joins over the
feature files only (the tessellation's identifier set is not an input,
so identifiers absent from every file are absent from the table, and
duplicate identifiers inside a column multiply rows instead of raising —
no `SchemaError` type exists).  When every feature column is key-unique,
the merged table has exactly one row per identifier occurring in at
least one file. -/
theorem c6_fused_keys_are_union_of_unique_files (files : List FTab)
    (h : ∀ t ∈ files, (t.rows.map Prod.fst).Nodup) (hne : files ≠ []) :
    ∃ T, fusion_features files = some T ∧ (T.rows.map Prod.fst).Nodup ∧
      (∀ x, x ∈ T.rows.map Prod.fst ↔ ∃ t ∈ files, x ∈ t.rows.map Prod.fst) := by
  rcases files with _ | ⟨f, fs⟩
  · exact absurd rfl hne
  · have hf := h f (List.mem_cons_self f fs)
    have hrec := foldl_outerMerge_keys fs f hf
      (fun t ht => h t (List.mem_cons_of_mem f ht))
    refine ⟨fs.foldl outerMerge f, rfl, hrec.1, fun x => ?_⟩
    rw [hrec.2 x]
    constructor
    · rintro (hx | ⟨t, ht, hx⟩)
      · exact ⟨f, List.mem_cons_self f fs, hx⟩
      · exact ⟨t, List.mem_cons_of_mem f ht, hx⟩
    · rintro ⟨t, ht, hx⟩
      rcases List.mem_cons.mp ht with rfl | ht2
      · exact Or.inl hx
      · exact Or.inr ⟨t, ht2, hx⟩

/-- C6, witness: the amended theorem at two one-row key-unique files. -/
theorem c6_witness :
    ((∀ t ∈ [FTab.mk 1 [("0", [some (1 : ℚ)])], FTab.mk 1 [("5", [some 2])]],
        (t.rows.map Prod.fst).Nodup) ∧
      ([FTab.mk 1 [("0", [some (1 : ℚ)])], FTab.mk 1 [("5", [some 2])]] ≠ [])) ∧
    (∃ T, fusion_features [FTab.mk 1 [("0", [some (1 : ℚ)])], FTab.mk 1 [("5", [some 2])]] =
        some T ∧ (T.rows.map Prod.fst).Nodup ∧
      (∀ x, x ∈ T.rows.map Prod.fst ↔
        ∃ t ∈ [FTab.mk 1 [("0", [some (1 : ℚ)])], FTab.mk 1 [("5", [some 2])]],
          x ∈ t.rows.map Prod.fst)) :=
  ⟨⟨by decide, by decide⟩,
   c6_fused_keys_are_union_of_unique_files
     [FTab.mk 1 [("0", [some (1 : ℚ)])], FTab.mk 1 [("5", [some 2])]]
     (by decide) (by decide)⟩

/-- A closed cell is covered by its half-open core and its two edges. -/
theorem Box.region_subset (b : Box) : b.region ⊆ b.regionIco ∪ b.regionEdge := by
  rintro ⟨px, py⟩ ⟨hx, hy⟩
  rw [mem_Icc] at hx hy
  by_cases hxe : px = (b.xmax : ℝ)
  · exact Or.inr (Or.inl ⟨mem_singleton_iff.mpr hxe, mem_Icc.mpr hy⟩)
  · by_cases hye : py = (b.ymax : ℝ)
    · exact Or.inr (Or.inr ⟨mem_Icc.mpr hx, mem_singleton_iff.mpr hye⟩)
    · exact Or.inl ⟨mem_Ico.mpr ⟨hx.1, lt_of_le_of_ne hx.2 hxe⟩,
        mem_Ico.mpr ⟨hy.1, lt_of_le_of_ne hy.2 hye⟩⟩

/-- The half-open core is measurable. -/
theorem Box.measurableSet_regionIco (b : Box) : MeasurableSet b.regionIco :=
  measurableSet_Ico.prod measurableSet_Ico

/-- The two edges of a cell have zero planar Lebesgue measure. -/
theorem Box.volume_regionEdge (b : Box) : volume b.regionEdge = 0 := by
  have h1 : volume (({(b.xmax : ℝ)} : Set ℝ) ×ˢ Icc (b.ymin : ℝ) (b.ymax : ℝ)) = 0 := by
    rw [Measure.volume_eq_prod, Measure.prod_prod, Real.volume_singleton, zero_mul]
  have h2 : volume ((Icc (b.xmin : ℝ) (b.xmax : ℝ)) ×ˢ ({(b.ymax : ℝ)} : Set ℝ)) = 0 := by
    rw [Measure.volume_eq_prod, Measure.prod_prod, Real.volume_singleton, mul_zero]
  refine le_antisymm (le_trans (measure_union_le _ _) ?_) (zero_le _)
  rw [h1, h2, add_zero]

/-- No double counting against pairwise disjoint measurable pieces: the
sum of the measures of `R ∩ Cᵢ` is at most the measure of `R`, for any
set `R`, by Carathéodory splitting along each piece in turn. -/
theorem sum_measure_inter_le {α : Type} [MeasurableSpace α] (μ : Measure α)
    (L : List (Set α)) :
    ∀ R : Set α, (∀ C ∈ L, MeasurableSet C) → L.Pairwise Disjoint →
      ((L.map (fun C => μ (R ∩ C))).sum) ≤ μ R := by
  induction L with
  | nil =>
      intro R _ _
      simp
  | cons C Cs ih =>
      intro R hm hd
      rw [List.pairwise_cons] at hd
      have hC := hm C (List.mem_cons_self C Cs)
      have hsplit : μ (R ∩ C) + μ (R \ C) = μ R := measure_inter_add_diff R hC
      have hstep : ((Cs.map (fun C2 => μ (R ∩ C2))).sum) ≤ μ (R \ C) := by
        calc ((Cs.map (fun C2 => μ (R ∩ C2))).sum)
            ≤ ((Cs.map (fun C2 => μ ((R \ C) ∩ C2))).sum) := by
              apply List.sum_le_sum
              intro C2 hC2
              apply measure_mono
              intro x hx
              have hxC : x ∉ C := Set.disjoint_left.mp (hd.1 C2 hC2).symm hx.2
              exact ⟨⟨hx.1, hxC⟩, hx.2⟩
          _ ≤ μ (R \ C) := ih (R \ C) (fun C2 hC2 => hm C2 (List.mem_cons_of_mem C hC2)) hd.2
      calc ((((C :: Cs)).map (fun C2 => μ (R ∩ C2))).sum)
          = μ (R ∩ C) + ((Cs.map (fun C2 => μ (R ∩ C2))).sum) := by
            rw [List.map_cons, List.sum_cons]
        _ ≤ μ (R ∩ C) + μ (R \ C) := add_le_add_left hstep _
        _ = μ R := hsplit

/-- Boxes separated horizontally by at least their width have disjoint
half-open cores. -/
theorem disjoint_regionIco_of_le_x (b b2 : Box) (h : b.xmax ≤ b2.xmin) :
    Disjoint b.regionIco b2.regionIco := by
  rw [Set.disjoint_left]
  rintro ⟨px, py⟩ ⟨hx, _⟩ ⟨hx2, _⟩
  rw [mem_Ico] at hx hx2
  have hcast : (b.xmax : ℝ) ≤ (b2.xmin : ℝ) := by exact_mod_cast h
  exact absurd (lt_of_lt_of_le hx.2 (le_trans hcast hx2.1)) (lt_irrefl px)

/-- Boxes separated vertically by at least their height have disjoint
half-open cores. -/
theorem disjoint_regionIco_of_le_y (b b2 : Box) (h : b.ymax ≤ b2.ymin) :
    Disjoint b.regionIco b2.regionIco := by
  rw [Set.disjoint_left]
  rintro ⟨px, py⟩ ⟨_, hy⟩ ⟨_, hy2⟩
  rw [mem_Ico] at hy hy2
  have hcast : (b.ymax : ℝ) ≤ (b2.ymin : ℝ) := by exact_mod_cast h
  exact absurd (lt_of_lt_of_le hy.2 (le_trans hcast hy2.1)) (lt_irrefl py)

/-- Successive `arange` values are at least one step apart. -/
theorem arange_pairwise_gap (start stop step : ℚ) (hs : 0 < step) :
    (arange start stop step).Pairwise (fun a b => a + step ≤ b) := by
  unfold arange
  show ((List.range (⌈(stop - start) / step⌉).toNat).map
      (fun i : ℕ => start + (i : ℚ) * step)).Pairwise (fun a b => a + step ≤ b)
  apply List.Pairwise.map
  · intro i j hij
    have h1 : ((i : ℚ) + 1) * step ≤ (j : ℚ) * step := by
      apply mul_le_mul_of_nonneg_right _ hs.le
      have hcast : (i : ℚ) + 1 = ((i + 1 : ℕ) : ℚ) := by push_cast; ring
      rw [hcast]
      exact_mod_cast hij
    nlinarith
  · exact List.pairwise_lt_range _

/-- The cells of the comprehension over gap-separated columns and rows
have pairwise disjoint half-open cores. -/
theorem pairwise_grid_of_gaps (cols rows : List ℚ) (s : ℚ)
    (hc : cols.Pairwise (fun a b => a + s ≤ b))
    (hr : rows.Pairwise (fun a b => a + s ≤ b)) :
    ((cols.map (fun x => rows.map (fun y => Box.mk x y (x + s) (y + s)))).flatten).Pairwise
      (fun b b2 => Disjoint b.regionIco b2.regionIco) := by
  rw [List.pairwise_flatten]
  constructor
  · intro l hl
    obtain ⟨x, _, rfl⟩ := List.mem_map.mp hl
    rw [List.pairwise_map]
    apply List.Pairwise.imp ?_ hr
    intro y y2 hyy
    exact disjoint_regionIco_of_le_y _ _ hyy
  · rw [List.pairwise_map]
    apply List.Pairwise.imp ?_ hc
    intro x x2 hxx
    intro bx hbx by2 hby2
    obtain ⟨y, _, rfl⟩ := List.mem_map.mp hbx
    obtain ⟨y2, _, rfl⟩ := List.mem_map.mp hby2
    exact disjoint_regionIco_of_le_x _ _ hxx

/-- The grid cells of `create_grid` have pairwise disjoint half-open
cores whenever the cell size is positive. -/
theorem create_grid_pairwise_disjoint (bounds : ℚ × ℚ × ℚ × ℚ) (s : ℚ) (hs : 0 < s) :
    (create_grid bounds s).Pairwise (fun b b2 => Disjoint b.regionIco b2.regionIco) := by
  unfold create_grid
  exact pairwise_grid_of_gaps _ _ s
    (arange_pairwise_gap _ _ _ hs) (arange_pairwise_gap _ _ _ hs)

/-- Core inequality behind claim C1: against the `create_grid`
tessellation, the total `μ`-mass of `R ∩ cell` over all cells is at most
the mass of `R`, for any measure `μ` that gives zero mass to the parts of
`R` on cell edges. -/
theorem grid_sum_measure_le (μ : Measure (ℝ × ℝ)) (bounds : ℚ × ℚ × ℚ × ℚ) (s : ℚ)
    (R : Set (ℝ × ℝ)) (hs : 0 < s)
    (hedge : ∀ b ∈ create_grid bounds s, μ (R ∩ b.regionEdge) = 0) :
    ((create_grid bounds s).map (fun b => μ (R ∩ b.region))).sum ≤ μ R := by
  have hico : ((create_grid bounds s).map (fun b => μ (R ∩ b.regionIco))).sum ≤ μ R := by
    have := sum_measure_inter_le μ ((create_grid bounds s).map Box.regionIco) R
      (by
        intro C hC
        obtain ⟨b, _, rfl⟩ := List.mem_map.mp hC
        exact b.measurableSet_regionIco)
      (by
        rw [List.pairwise_map]
        exact create_grid_pairwise_disjoint bounds s hs)
    rwa [List.map_map] at this
  calc ((create_grid bounds s).map (fun b => μ (R ∩ b.region))).sum
      ≤ ((create_grid bounds s).map
          (fun b => μ (R ∩ b.regionIco) + μ (R ∩ b.regionEdge))).sum := by
        apply List.sum_le_sum
        intro b _
        calc μ (R ∩ b.region)
            ≤ μ ((R ∩ b.regionIco) ∪ (R ∩ b.regionEdge)) := by
              apply measure_mono
              intro x hx
              rcases b.region_subset hx.2 with h | h
              · exact Or.inl ⟨hx.1, h⟩
              · exact Or.inr ⟨hx.1, h⟩
          _ ≤ μ (R ∩ b.regionIco) + μ (R ∩ b.regionEdge) := measure_union_le _ _
    _ = ((create_grid bounds s).map (fun b => μ (R ∩ b.regionIco))).sum +
        ((create_grid bounds s).map (fun b => μ (R ∩ b.regionEdge))).sum :=
      List.sum_map_add
    _ = ((create_grid bounds s).map (fun b => μ (R ∩ b.regionIco))).sum := by
      have hz : ((create_grid bounds s).map (fun b => μ (R ∩ b.regionEdge))).sum = 0 := by
        apply List.sum_eq_zero
        intro x hx
        obtain ⟨b, hb, rfl⟩ := List.mem_map.mp hx
        exact hedge b hb
      rw [hz, add_zero]
    _ ≤ μ R := hico

/-- C1, amended: for every record geometry `R` and positive cell size,
the sum over all `create_grid` cells of the area of `R ∩ cell` is at most
the area of `R` — unconditionally for the planar area measure of
`compute_surface_batie`; and for any measure (in particular the length
measure of `compute_densite_voirie_optimisee`) the same bound holds
provided `R` meets every cell edge in a null set.  The proviso is
necessary: see the counterexample of a road lying along a shared edge. -/
theorem c1_sum_over_cells_le_record (bounds : ℚ × ℚ × ℚ × ℚ) (s : ℚ)
    (R : Set (ℝ × ℝ)) (μ : Measure (ℝ × ℝ)) (hs : 0 < s) :
    (((create_grid bounds s).map (fun b => volume (R ∩ b.region))).sum ≤ volume R) ∧
    ((∀ b ∈ create_grid bounds s, μ (R ∩ b.regionEdge) = 0) →
      ((create_grid bounds s).map (fun b => μ (R ∩ b.region))).sum ≤ μ R) := by
  constructor
  · apply grid_sum_measure_le volume bounds s R hs
    intro b _
    refine le_antisymm (le_trans (measure_mono (inter_subset_right)) ?_) (zero_le _)
    rw [b.volume_regionEdge]
  · intro hedge
    exact grid_sum_measure_le μ bounds s R hs hedge

/-- C1, counterexample: the road along the shared cell edge has length
100, but both closed cells contain it entirely, so the overlay join
attributes length 100 to each of the two cells — the total 200 exceeds
the record's own length by a factor of 2, far beyond floating-point
tolerance. -/
theorem c1_counterexample_road_on_shared_edge :
    μH[1] roadOnEdge = ENNReal.ofReal 100 ∧
    ((create_grid (0, 0, 400, 200) 200).map
      (fun b => μH[1] (roadOnEdge ∩ b.region))).sum = ENNReal.ofReal 200 ∧
    μH[1] roadOnEdge <
      ((create_grid (0, 0, 400, 200) 200).map
        (fun b => μH[1] (roadOnEdge ∩ b.region))).sum := by
  have hisom : Isometry (fun t : ℝ => ((200 : ℝ), t)) := by
    apply Isometry.of_dist_eq
    intro a b
    show max (dist (200 : ℝ) 200) (dist a b) = dist a b
    rw [dist_self]
    exact max_eq_right dist_nonneg
  have hroad : μH[1] roadOnEdge = ENNReal.ofReal 100 := by
    unfold roadOnEdge
    rw [hisom.hausdorffMeasure_image (Or.inl zero_le_one)]
    rw [show (μH[1] : Measure ℝ) = volume from hausdorffMeasure_real]
    rw [Real.volume_Icc]
    norm_num
  have hgrid : create_grid (0, 0, 400, 200) 200 =
      [Box.mk 0 0 200 200, Box.mk 200 0 400 200] := by
    with_unfolding_all decide
  have hsub1 : roadOnEdge ⊆ (Box.mk 0 0 200 200).region := by
    rintro p ⟨t, ht, rfl⟩
    rw [mem_Icc] at ht
    refine ⟨mem_Icc.mpr ⟨?_, ?_⟩, mem_Icc.mpr ⟨?_, ?_⟩⟩ <;> push_cast <;> linarith [ht.1, ht.2]
  have hsub2 : roadOnEdge ⊆ (Box.mk 200 0 400 200).region := by
    rintro p ⟨t, ht, rfl⟩
    rw [mem_Icc] at ht
    refine ⟨mem_Icc.mpr ⟨?_, ?_⟩, mem_Icc.mpr ⟨?_, ?_⟩⟩ <;> push_cast <;> linarith [ht.1, ht.2]
  have hsum : ((create_grid (0, 0, 400, 200) 200).map
      (fun b => μH[1] (roadOnEdge ∩ b.region))).sum = ENNReal.ofReal 200 := by
    rw [hgrid]
    show μH[1] (roadOnEdge ∩ (Box.mk 0 0 200 200).region) +
      (μH[1] (roadOnEdge ∩ (Box.mk 200 0 400 200).region) + 0) = ENNReal.ofReal 200
    rw [inter_eq_left.mpr hsub1, inter_eq_left.mpr hsub2, hroad, add_zero,
      ← ENNReal.ofReal_add (by norm_num) (by norm_num)]
    norm_num
  refine ⟨hroad, hsum, ?_⟩
  rw [hroad, hsum]
  rw [ENNReal.ofReal_lt_ofReal_iff (by norm_num)]
  norm_num

/-- C1, witness: the amended theorem at cell size 200 over the two-cell
bounds, with the length measure `μH[1]` and a road strictly inside one
cell, whose intersection with every cell edge is empty. -/
theorem c1_witness :
    ((0 : ℚ) < 200 ∧
      (∀ b ∈ create_grid (0, 0, 400, 200) 200,
        μH[1] (roadInsideCell ∩ b.regionEdge) = 0)) ∧
    ((((create_grid (0, 0, 400, 200) 200).map
        (fun b => volume (roadInsideCell ∩ b.region))).sum ≤ volume roadInsideCell) ∧
     ((∀ b ∈ create_grid (0, 0, 400, 200) 200,
          μH[1] (roadInsideCell ∩ b.regionEdge) = 0) →
        (((create_grid (0, 0, 400, 200) 200).map
          (fun b => μH[1] (roadInsideCell ∩ b.region))).sum ≤ μH[1] roadInsideCell))) := by
  have hgrid : create_grid (0, 0, 400, 200) 200 =
      [Box.mk 0 0 200 200, Box.mk 200 0 400 200] := by
    with_unfolding_all decide
  have hedge : ∀ b ∈ create_grid (0, 0, 400, 200) 200,
      μH[1] (roadInsideCell ∩ b.regionEdge) = 0 := by
    intro b hb
    rw [hgrid] at hb
    have hempty : roadInsideCell ∩ b.regionEdge = ∅ := by
      rcases List.mem_cons.mp hb with rfl | hb2
      · rw [eq_empty_iff_forall_not_mem]
        rintro ⟨px, py⟩ ⟨⟨hx, hy⟩, hedge⟩
        rw [mem_singleton_iff] at hx
        rw [mem_Icc] at hy
        rcases hedge with ⟨hex, _⟩ | ⟨_, hey⟩
        · rw [mem_singleton_iff] at hex
          rw [hex] at hx
          norm_num at hx
        · rw [mem_singleton_iff] at hey
          rw [hey] at hy
          have := hy.2
          norm_num at this
      · rcases List.mem_singleton.mp hb2 with rfl
        rw [eq_empty_iff_forall_not_mem]
        rintro ⟨px, py⟩ ⟨⟨hx, hy⟩, hedge⟩
        rw [mem_singleton_iff] at hx
        rw [mem_Icc] at hy
        rcases hedge with ⟨hex, _⟩ | ⟨_, hey⟩
        · rw [mem_singleton_iff] at hex
          rw [hex] at hx
          norm_num at hx
        · rw [mem_singleton_iff] at hey
          rw [hey] at hy
          have := hy.2
          norm_num at this
    rw [hempty, measure_empty]
  exact ⟨⟨by norm_num, hedge⟩,
    c1_sum_over_cells_le_record (0, 0, 400, 200) 200 roadInsideCell μH[1] (by norm_num)⟩

end ModelPop
